import Mathlib

/-
Verification of the evaluator of FrancisMcN/lisp (src/lisp/lisp.c).

The file shallow-embeds the interpreter found in the second half of
src/lisp/lisp.c (the version starting at line 1368, which is the one all
line references below point into).  Modelling decisions:

* C `Object*` values are modelled by the pure inductive `Obj`; the NULL
  pointer (nil) is the constructor `Obj.nil`.  The in-place list builders
  of the C code (`cons_new(NULL,NULL)` followed by `setcar`/`setcdr` on
  the freshly allocated cells, terminated by `prev->cdr = NULL`) only
  ever mutate cells allocated inside the same builder, so they are
  rendered as the pure builder `consBuild`.
* Environments are mutable and shared (closures capture a frame pointer,
  `define`/`set` write through it), so they are kept in an explicit
  store: a list of `Frame`s indexed by `Nat` ids, threaded through the
  evaluator.  The C hash table (`map_put` inserts or overwrites,
  `map_get` finds by key) is modelled as an association list.
* The evaluator is fueled.  Every function of the mutually recursive
  block takes a fuel argument and returns `none` when fuel runs out, and
  also when the C code would read an inactive union member
  (`obj->data.str` of a cons, `obj->data.fn` of a number, ...), which is
  undefined behaviour in the source.
* The garbage collector is not modelled: it only reclaims memory and
  never changes the value of any expression (its known re-marking bug is
  outside every claim's scope).
* The heap mutators `setcar`/`setcdr` cannot be expressed on pure
  values; they are modelled separately, on an explicit heap of cells, in
  the `HHeap` section at the end of the definitions.
-/

set_option linter.unusedVariables false

namespace Lisp

/-- Names of the builtin C functions modelled here (a subset of the table
installed by `init_env`, lisp.c:3666-3707; the remaining builtins are not
referenced by any claim). -/
inductive BName where
  | bcar
  | bcdr
  | bcons
  | blist
  | bappend
deriving DecidableEq

/-- The value model: the `Object` struct of lisp.c:1409-1420 together with
its `Type` tag (lisp.c:1373) and the `Function` payload (lisp.c:1395-1403).
`Obj.nil` is the NULL pointer.  A user-defined callable (`is_user_defined`)
carries `rest_arg`, `args`, `body` and its captured environment id; a
builtin carries its function pointer as a `BName`.  The `FUNCTION`/`MACRO`
type tags always agree with the `is_macro` flag in the source, so a single
`isMac` field represents both. -/
inductive Obj : Type where
  | nil : Obj
  | num (n : Int) : Obj
  | sym (s : String) : Obj
  | str (s : String) : Obj
  | err (s : String) : Obj
  | cons (a d : Obj) : Obj
  | bool (b : Bool) : Obj
  | ufunc (isMac : Bool) (restArg : Int) (params body : Obj) (envId : Nat) : Obj
  | bfunc (isMac : Bool) (name : BName) : Obj
deriving DecidableEq

/-- car (lisp.c:2193-2198): the car of a cons, NULL for anything else
(including NULL itself). -/
def car : Obj → Obj
  | .cons a _ => a
  | _ => .nil

/-- cdr (lisp.c:2206-2211): the cdr of a cons, NULL for anything else. -/
def cdr : Obj → Obj
  | .cons _ d => d
  | _ => .nil

/-- `is_type(o, CONS)` (lisp.c:1585-1590). -/
def isCons : Obj → Bool
  | .cons _ _ => true
  | _ => false

/-- `o != NULL && o->type == ERROR` (as tested in `exec`, lisp.c:3273). -/
def isErr : Obj → Bool
  | .err _ => true
  | _ => false

/-- The `data.str` union member.  Defined (`some`) exactly for the three
variants that store a string; reading it from any other variant is
undefined behaviour in the C source and is modelled as `none`. -/
def objStr : Obj → Option String
  | .sym s => some s
  | .str s => some s
  | .err s => some s
  | _ => none

/-- is_equal (lisp.c:2140-2165): NULL equals only NULL; otherwise the types
must match; numbers, strings and symbols compare by content, cons by
recursive equality of car then cdr.  The `default` branch of the C switch
compares `data.num`, i.e. for booleans the 0/1 flag and for errors and
callables the first machine word of the union (pointer identity); no claim
depends on the error/callable cases, which are modelled structurally. -/
def is_equal : Obj → Obj → Bool
  | .nil, .nil => true
  | .num a, .num b => a == b
  | .str a, .str b => a == b
  | .sym a, .sym b => a == b
  | .cons a₁ d₁, .cons a₂ d₂ => is_equal a₁ a₂ && is_equal d₁ d₂
  | .bool a, .bool b => a == b
  | .err a, .err b => a == b
  | .ufunc m r p b e, .ufunc m2 r2 p2 b2 e2 =>
      m == m2 && r == r2 && is_equal p p2 && is_equal b b2 && e == e2
  | .bfunc m n, .bfunc m2 n2 => m == m2 && n == n2
  | _, _ => false

/-- length (lisp.c:2224-2238): number of cons cells along the cdr chain. -/
def lengthObj : Obj → Nat
  | .cons _ d => lengthObj d + 1
  | _ => 0

/-- The loop of find (lisp.c:2245-2259): walk `temp` while non-NULL,
comparing `x` against `car(temp)`.  A non-cons, non-NULL tail is visited
once (its car and cdr are NULL), which the last case renders directly. -/
def findAux (x : Obj) : Obj → Int → Int
  | .nil, _ => -1
  | .cons a d, i => if is_equal x a then i else findAux x d (i + 1)
  | _, i => if is_equal x .nil then i else -1

/-- find (lisp.c:2245-2259): position of `x` in the list `l`, or -1. -/
def find (x : Obj) (l : Obj) : Int := findAux x l 0

/-- A proper list from a Lean list of elements. -/
def objList : List Obj → Obj
  | [] => .nil
  | x :: t => .cons x (objList t)

/-- The builder idiom shared by `list` (parser), `builtin_list`,
`builtin_append`, `copy`, the quasiquote loop and the rest-argument
collector: allocate `cons_new(NULL,NULL)`, fill it element by element via
`setcar`/`setcdr`, finally terminate with `prev->cdr = NULL`.  With no
elements the freshly allocated cell survives as `(nil . nil)`, i.e. the
one-element list `(nil)`; otherwise the result is the proper list of the
elements. -/
def consBuild : List Obj → Obj
  | [] => .cons .nil .nil
  | x :: t => objList (x :: t)

/-- The cars along a cons spine (helper for stating list facts). -/
def spineCars : Obj → List Obj
  | .cons a d => a :: spineCars d
  | _ => []

/-- The elements visited by builtin_append's inner loop
(`while (temp != NULL) { setcar(cur, car(temp)); ... temp = cdr(temp); }`,
lisp.c:3494-3500): the cars of the spine, plus one NULL element
contributed by a non-nil, non-cons tail (whose car is NULL). -/
def spineElems : Obj → List Obj
  | .nil => []
  | .cons a d => a :: spineElems d
  | _ => [.nil]

/-- The element list collected by copy (lisp.c:3362-3387): walk the spine
while it is a cons; a cons element is deep-copied, any other element is
shared. -/
def copyElems : Obj → List Obj
  | .cons a d =>
      (match a with
       | .cons x y => consBuild (copyElems (.cons x y))
       | _ => a) :: copyElems d
  | _ => []

/-- copy (lisp.c:3362-3387): rebuild the spine with the `consBuild` idiom.
Note that `copy` of a non-cons (the loop never runs) yields the cell
`(nil . nil)`, and an improper tail is dropped. -/
def copy (t : Obj) : Obj := consBuild (copyElems t)

/-- is_special_form (lisp.c:2667-2685): the head is a symbol naming one of
the ten special forms. -/
def isSpecialForm (o : Obj) : Bool :=
  match car o with
  | .sym s =>
      s == "quote" || s == "quasiquote" || s == "eval" || s == "define" ||
      s == "lambda" || s == "macro" || s == "do" || s == "let" ||
      s == "set" || s == "if"
  | _ => false

/-- is_unquote (lisp.c:2692-2700): a cons whose car is the symbol
`unquote`. -/
def isUnquote : Obj → Bool
  | .cons (.sym s) _ => s == "unquote"
  | _ => false

/-- is_truthy (lisp.c:2863-2880): numbers and booleans are truthy iff
`data.num > 0` (so `false`, with flag 0, is falsy and `true` truthy),
errors and NULL are falsy, every other variant is truthy. -/
def isTruthy : Obj → Bool
  | .nil => false
  | .num n => 0 < n
  | .bool b => b
  | .err _ => false
  | .sym _ => true
  | .str _ => true
  | .cons _ _ => true
  | .ufunc _ _ _ _ _ => true
  | .bfunc _ _ => true

/-- type (lisp.c:2167-2191), as the name string it wraps. -/
def typeName : Obj → String
  | .nil => "nil"
  | .num _ => "number"
  | .sym _ => "symbol"
  | .str _ => "string"
  | .err _ => "error"
  | .ufunc m _ _ _ _ => if m then "macro" else "function"
  | .bfunc m _ => if m then "macro" else "function"
  | .cons _ _ => "cons"
  | .bool _ => "bool"

mutual

/-- fprint (lisp.c:2297-2351) rendered to a string; `fprintTail` is the
remainder of the cons loop, which prints `" "` before a further element
and `" . "` before an improper tail.  Callables are printed by the C code
as a pointer value, modelled by an opaque token (no claim inspects it). -/
def fprintStr : Obj → String
  | .nil => "nil"
  | .num n => toString n
  | .sym s => s
  | .str s => s
  | .err s => s
  | .bool b => if b then "true" else "false"
  | .ufunc _ _ _ _ _ => "<callable>"
  | .bfunc _ _ => "<callable>"
  | .cons a d => "(" ++ fprintStr a ++ fprintTail d ++ ")"

/-- The tail of fprint's cons loop; see `fprintStr`. -/
def fprintTail : Obj → String
  | .nil => ""
  | .cons a d => " " ++ fprintStr a ++ fprintTail d
  | x => " . " ++ fprintStr x

end

/-- Access into the `arg_array` passed to builtins and to
`function_wrapper`: a 255-slot array zero-initialised to NULL
(lisp.c:2976), modelled as a list padded with nil. -/
def argGet (args : List Obj) (i : Nat) : Obj := args.getD i .nil

/-- builtin_car (lisp.c:3393-3395). -/
def builtin_car (args : List Obj) : Obj := car (argGet args 0)

/-- builtin_cdr (lisp.c:3402-3404). -/
def builtin_cdr (args : List Obj) : Obj := cdr (argGet args 0)

/-- builtin_cons (lisp.c:3415-3417). -/
def builtin_cons (args : List Obj) : Obj := .cons (argGet args 0) (argGet args 1)

/-- The scan of builtin_list (lisp.c:3451-3468): collect arguments while
`args[i] != NULL`; the first NULL argument terminates the scan. -/
def listCollect : List Obj → List Obj
  | [] => []
  | .nil :: _ => []
  | a :: t => a :: listCollect t

/-- builtin_list (lisp.c:3451-3468): the collected arguments assembled by
the `consBuild` idiom. -/
def builtin_list (args : List Obj) : Obj := consBuild (listCollect args)

/-- The outer loop of builtin_append (lisp.c:3487-3502): iterate the
arguments while `args[i] != NULL` (a NULL argument terminates the scan
without an error); a non-cons argument produces a type error naming its
index and type; a cons argument contributes its `spineElems`. -/
def bappGo : List Obj → Nat → List Obj → Obj
  | [], _, acc => consBuild acc
  | .nil :: _, _, acc => consBuild acc
  | .cons a d :: t, i, acc => bappGo t (i + 1) (acc ++ spineElems (.cons a d))
  | a :: _, i, _ =>
      .err ("type error: append expects each argument to be a list but argument " ++
        toString i ++ " is a " ++ typeName a ++ ".")

/-- builtin_append (lisp.c:3477-3506). -/
def builtin_append (args : List Obj) : Obj := bappGo args 0 []

/-- Dispatch a builtin function pointer.  All five modelled builtins
ignore the fresh environment the caller passes them (lisp.c:3031), so the
dispatch is pure. -/
def callBuiltin : BName → List Obj → Obj
  | .bcar, a => builtin_car a
  | .bcdr, a => builtin_cdr a
  | .bcons, a => builtin_cons a
  | .blist, a => builtin_list a
  | .bappend, a => builtin_append a

/-- Reading the `data.fn` header of a callable, as eval_function_call does
(lisp.c:2995, 3002, 3030): `(is_user_defined, is_macro, rest_arg)`.
Builtins store `rest_arg = -1` (lisp.c:1835, 1850).  Reading these fields
from a non-callable is undefined behaviour, modelled as `none`. -/
def fnInfo : Obj → Option (Bool × Bool × Int)
  | .ufunc m r _ _ _ => some (true, m, r)
  | .bfunc m _ => some (false, m, -1)
  | _ => none

/-- The keyword test of eval (lisp.c:3238): `obj->data.str[0] == ':'`
(false for the empty name, whose first byte is the terminator). -/
def isKeywordName (s : String) : Bool :=
  match s.data with
  | [] => false
  | c :: _ => c == ':'

/-
Environment chain (lisp.c:1385-1389, 1466-1554).  A frame is a mapping
plus a parent pointer; frames live in a store indexed by `Nat` ids.
-/

/-- An environment frame (struct Env, lisp.c:1385-1389); the hash table is
modelled as an association list (`map_put` inserts or overwrites,
lisp.c:2036-2077; `map_get` finds by key, lisp.c:2085-2114). -/
structure Frame where
  map : List (String × Obj)
  prev : Option Nat
deriving DecidableEq

/-- The store of allocated frames; a frame's id is its index. -/
abbrev St := List Frame

/-- map_get (lisp.c:2085-2114) on the association-list model. -/
def mapGet : List (String × Obj) → String → Option Obj
  | [], _ => none
  | (k', v) :: t, k => if k' = k then some v else mapGet t k

/-- map_put (lisp.c:2036-2077): overwrite the value of an existing key,
otherwise insert. -/
def mapPut : List (String × Obj) → String → Obj → List (String × Obj)
  | [], k, v => [(k, v)]
  | (k', v') :: t, k, v => if k' = k then (k', v) :: t else (k', v') :: mapPut t k v

/-- env_new (lisp.c:1466-1473): allocate a fresh empty frame whose parent
is `prev`; returns the new store and the new frame's id. -/
def envNew (S : St) (prev : Option Nat) : St × Nat := (S ++ [⟨[], prev⟩], S.length)

/-- env_put (lisp.c:1529-1531): `map_put` into the frame's own map.  A
dangling frame id would be undefined behaviour in C and never occurs in
stores built by the evaluator; it is modelled as a no-op. -/
def envPut (S : St) (e : Nat) (k : String) (v : Obj) : St :=
  match S.get? e with
  | some f => S.set e ⟨mapPut f.map k v, f.prev⟩
  | none => S

/-- The chain walk of env_get (lisp.c:1533-1547), fueled: search the
frame's map, then the parent chain.  The C loop does not terminate on a
cyclic chain; such chains are never created (every frame's parent exists
before it), and the default fuel `S.length + 1` always suffices for the
well-formed stores the evaluator builds. -/
def envGetAux : Nat → St → Option Nat → String → Option Obj
  | 0, _, _, _ => none
  | _, _, none, _ => none
  | fuel + 1, S, some e, k =>
    match S.get? e with
    | none => none
    | some f =>
      match mapGet f.map k with
      | some v => some v
      | none => envGetAux fuel S f.prev k

/-- env_get (lisp.c:1533-1547): `none` models the NULL-key `MapEntry`
returned when the name is bound in no frame of the chain. -/
def envGet (S : St) (e : Nat) (k : String) : Option Obj :=
  envGetAux (S.length + 1) S (some e) k

/-- The value the evaluator reads out of the returned `MapEntry`
(`entry.value`, lisp.c:3244): NULL when the name is absent. -/
def envLookup (S : St) (e : Nat) (k : String) : Obj := (envGet S e k).getD .nil

/-- The root walk of eval_define_special_form (lisp.c:2800-2803), fueled
like `envGetAux`. -/
def envRootAux : Nat → St → Nat → Option Nat
  | 0, _, _ => none
  | fuel + 1, S, e =>
    match S.get? e with
    | none => none
    | some f =>
      match f.prev with
      | none => some e
      | some p => envRootAux fuel S p

/-- The root frame of the chain starting at `e`. -/
def envRoot (S : St) (e : Nat) : Option Nat := envRootAux (S.length + 1) S e

/-- Well-formedness of a store: every parent pointer points strictly
below its frame.  Every store the evaluator builds satisfies this
(`env_new` links a new frame to an existing one). -/
def EnvWF (S : St) : Prop :=
  ∀ i f p, S.get? i = some f → f.prev = some p → p < i

/-- The parameter-binding loop of function_wrapper (lisp.c:2710-2717):
walk the parameter list while `car(temp) != NULL`, binding each parameter
name to `args[i]` in the frame `fid`.  A non-symbol parameter would make
the C code read `name->data.str` from an inactive union member
(undefined behaviour), modelled as `none`. -/
def bindLoop (fid : Nat) : St → Obj → List Obj → Nat → Option St
  | S, .cons a d, args, i =>
      if a = .nil then some S
      else
        match objStr a with
        | none => none
        | some nm => bindLoop fid (envPut S fid nm (args.getD i .nil)) d args (i + 1)
  | S, _, _, _ => some S

/-- The association map produced by the binding loop of function_wrapper
(lisp.c:2710-2717) on a frame whose map was `m`: each parameter name in
turn is `map_put` against `args[i]`. -/
def bindMaps (m : List (String × Obj)) : List String → List Obj → Nat → List (String × Obj)
  | [], _, _ => m
  | p :: t, arr, i => bindMaps (mapPut m p (arr.getD i .nil)) t arr (i + 1)

/-- The blanking part of the rest-argument block (lisp.c:3012-3027): the
loop sets `arg_array[i] = NULL` for every `rest_arg ≤ i < arg_count`. -/
def blankFrom (k n : Nat) : List Obj → Nat → List Obj
  | [], _ => []
  | a :: t, i => (if k ≤ i ∧ i < n then .nil else a) :: blankFrom k n t (i + 1)

/-- The elements the rest-argument loop collects: `arg_array[i]` for
`rest_arg ≤ i < arg_count` (unfilled array slots read as NULL). -/
def restSlice (arr : List Obj) (k n : Nat) : List Obj :=
  (List.range (n - k)).map (fun j => arr.getD (k + j) .nil)

/-- The rest-argument block of eval_function_call (lisp.c:3012-3027):
collect `arg_array[rest_arg ..< arg_count]` into a fresh list built by the
`consBuild` idiom (so an empty collection leaves the freshly allocated
`(nil . nil)` cell), blank the collected slots, and store the list at
position `rest_arg`. -/
def collectRest (arr : List Obj) (k n : Nat) : List Obj :=
  let base := blankFrom k n arr 0
  (base ++ List.replicate (k + 1 - base.length) Obj.nil).set k (consBuild (restSlice arr k n))

/-
Reader: lexer (lisp.c:2372-2660) and recursive-descent parser
(lisp.c:3101-3227).  The character cursor `char**` is modelled as a
`List Char` from which consumed characters are dropped.
-/

/-- TokenType (lisp.c:2372). -/
inductive TokT where
  | tLparen
  | tRparen
  | tString
  | tNumber
  | tSymbol
  | tQuote
  | tComma
  | tBacktick
  | tEof
deriving DecidableEq

/-- Token (lisp.c:2375-2378). -/
structure Token where
  type : TokT
  value : String
deriving DecidableEq

/-- The single-quote character (code 39). -/
def cQuote : Char := Char.ofNat 39

/-- The double-quote character (code 34). -/
def cDQuote : Char := Char.ofNat 34

/-- The grave-accent character (code 96), the quasiquote shorthand. -/
def cBTick : Char := Char.ofNat 96

/-- is_number (lisp.c:2423-2428). -/
def isNumCh (c : Char) : Bool := 48 ≤ c.toNat && c.toNat ≤ 57

/-- is_printable (lisp.c:2435-2440). -/
def isPrintableCh (c : Char) : Bool := 33 ≤ c.toNat && c.toNat ≤ 126

/-- is_symbol (lisp.c:2447-2461): printable and none of `( ) ' backtick ,`. -/
def isSymCh (c : Char) : Bool :=
  isPrintableCh c &&
    !(c = '(' || c = ')' || c = cQuote || c = cBTick || c = ',')

/-- is_string (lisp.c:2463-2468). -/
def isStrCh (c : Char) : Bool := c = cDQuote

/-- next_char (lisp.c:2484-2486): the byte after the cursor; at the end of
the input this reads the NUL terminator. -/
def headD0 (l : List Char) : Char := l.headD (Char.ofNat 0)

/-- advance_char(str, 1) (lisp.c:2493-2496); at the end of the input the C
code would step past the terminator (undefined behaviour), modelled as
staying at the end. -/
def dropOne : List Char → List Char
  | [] => []
  | _ :: t => t

/-- The collection loop of scan_string (lisp.c:2515-2525): gather bytes
until the closing double quote, leaving the cursor on it.  On an
unterminated string the C loop runs past the buffer (undefined
behaviour); the model stops at the end of the input. -/
def scanStrAux : List Char → List Char → String × List Char
  | [], acc => (⟨acc.reverse⟩, [])
  | c :: rest, acc =>
      if c = cDQuote then (⟨acc.reverse⟩, c :: rest)
      else scanStrAux rest (c :: acc)

/-- The collection loop of scan_symbol (lisp.c:2532-2542). -/
def scanSymAux : List Char → List Char → String × List Char
  | [], acc => (⟨acc.reverse⟩, [])
  | c :: rest, acc =>
      if isSymCh c then scanSymAux rest (c :: acc)
      else (⟨acc.reverse⟩, c :: rest)

/-- The digit-collection loop of scan_number (lisp.c:2549-2563). -/
def scanNumAux : List Char → List Char → List Char × List Char
  | [], acc => (acc.reverse, [])
  | c :: rest, acc =>
      if isNumCh c then scanNumAux rest (c :: acc)
      else (acc.reverse, c :: rest)

/-- scan_number (lisp.c:2549-2563): an optional leading minus followed by
the digits. -/
def scanNumber (l : List Char) : String × List Char :=
  match l with
  | c :: rest =>
      if c = '-' then
        let (ds, r) := scanNumAux rest []
        (⟨'-' :: ds⟩, r)
      else
        let (ds, r) := scanNumAux l []
        (⟨ds⟩, r)
  | [] => (⟨[]⟩, [])

/-- The digit fold of strtol as used by str_to_int (lisp.c:1368-1370);
stops at the first non-digit. -/
def digitsVal : List Char → Int → Int
  | [], acc => acc
  | c :: t, acc =>
      if isNumCh c then digitsVal t (acc * 10 + ((c.toNat : Int) - 48))
      else acc

/-- str_to_int (lisp.c:1368-1370) on the number tokens the scanner
produces (an optional minus then digits); the 32-bit truncation of the
cast is outside every claim and not modelled. -/
def strToInt (s : String) : Int :=
  match s.data with
  | c :: t => if c = '-' then -(digitsVal t 0) else digitsVal (c :: t) 0
  | [] => 0

mutual

/-- next (lisp.c:2572-2624): produce the next token, consuming the
characters it spans.  Whitespace is skipped; `;` hands over to the
comment skipper; a character that no branch accepts (a non-printable
byte) would make the C loop spin forever and is modelled as an immediate
EOF. -/
def next : List Char → Token × List Char
  | [] => (⟨.tEof, "EOF"⟩, [])
  | c :: rest =>
      if c = '(' then (⟨.tLparen, "("⟩, rest)
      else if c = ')' then (⟨.tRparen, ")"⟩, rest)
      else if c = cQuote then (⟨.tQuote, "quote-mark"⟩, rest)
      else if c = ',' then (⟨.tComma, ","⟩, rest)
      else if c = cBTick then (⟨.tBacktick, "backtick-mark"⟩, rest)
      else if c = ' ' ∨ c = '\t' ∨ c = '\r' ∨ c = '\n' then next rest
      else if c = ';' then nextComment rest
      else if (c = '-' ∧ isNumCh (headD0 rest)) ∨ isNumCh c then
        let (v, rest') := scanNumber (c :: rest)
        (⟨.tNumber, v⟩, rest')
      else if isStrCh c then
        let (v, rest') := scanStrAux rest []
        (⟨.tString, v⟩, dropOne rest')
      else if isSymCh c then
        let (v, rest') := scanSymAux (c :: rest) []
        (⟨.tSymbol, v⟩, rest')
      else (⟨.tEof, "EOF"⟩, [])

/-- scan_comment (lisp.c:2502-2508) fused with the re-entry into `next`:
skip to the newline (which `next`'s whitespace branch then consumes) or to
the end of the input. -/
def nextComment : List Char → Token × List Char
  | [] => (⟨.tEof, "EOF"⟩, [])
  | c :: rest => if c = '\n' then next rest else nextComment rest

end

/-- is_atom (lisp.c:2642-2647). -/
def isAtomTok (t : Token) : Bool :=
  t.type = .tNumber || t.type = .tString || t.type = .tSymbol

/-- is_expr (lisp.c:2655-2660). -/
def isExprTok (t : Token) : Bool :=
  t.type = .tQuote || t.type = .tBacktick || t.type = .tComma ||
    t.type = .tLparen || isAtomTok t

mutual

/-- expr (lisp.c:3195-3219): peek at the next token and dispatch. -/
def exprP : Nat → List Char → Option (Obj × List Char)
  | 0, _ => none
  | fuel + 1, c =>
      let t := (next c).1
      if t.type = .tQuote then quoteP fuel c
      else if t.type = .tBacktick then qqP fuel c
      else if t.type = .tComma then uqP fuel c
      else if t.type = .tLparen then listP fuel c
      else atomP fuel c

/-- quote (lisp.c:3101-3104): consume the shorthand token and wrap the
following expression as `(quote e)`. -/
def quoteP : Nat → List Char → Option (Obj × List Char)
  | 0, _ => none
  | fuel + 1, c =>
      match exprP fuel (next c).2 with
      | none => none
      | some (o, c') => some (.cons (.sym ("quote")) (.cons o .nil), c')

/-- unquote (lisp.c:3106-3109). -/
def uqP : Nat → List Char → Option (Obj × List Char)
  | 0, _ => none
  | fuel + 1, c =>
      match exprP fuel (next c).2 with
      | none => none
      | some (o, c') => some (.cons (.sym ("unquote")) (.cons o .nil), c')

/-- quasiquote (lisp.c:3111-3114). -/
def qqP : Nat → List Char → Option (Obj × List Char)
  | 0, _ => none
  | fuel + 1, c =>
      match exprP fuel (next c).2 with
      | none => none
      | some (o, c') => some (.cons (.sym ("quasiquote")) (.cons o .nil), c')

/-- atom (lisp.c:3169-3190): build the value from the peeked token, then
consume it; tokens that are not atoms leave the NULL object. -/
def atomP : Nat → List Char → Option (Obj × List Char)
  | 0, _ => none
  | _ + 1, c =>
      let (t, c') := next c
      let o : Obj :=
        if t.type = .tNumber then .num (strToInt t.value)
        else if t.type = .tString then .str t.value
        else if t.type = .tSymbol then .sym t.value
        else .nil
      some (o, c')

/-- list (lisp.c:3122-3164): consume the opening paren; an immediate `)`
yields nil; otherwise collect `expr`s while the lookahead is one, consume
the terminating token and demand it be `)`, producing the syntax-error
object if it is not (i.e. at end of input). -/
def listP : Nat → List Char → Option (Obj × List Char)
  | 0, _ => none
  | fuel + 1, c =>
      let c₁ := (next c).2
      let t := (next c₁).1
      if t.type = .tRparen then some (.nil, (next c₁).2)
      else
        match listLoop fuel c₁ with
        | none => none
        | some (elems, c₂) =>
            let (t', c₃) := next c₂
            if t'.type = .tRparen then some (consBuild elems, c₃)
            else some (.err ("syntax error: missing expected ')'"), c₃)

/-- The `while (is_expr(token))` loop of list (lisp.c:3143-3150),
collecting the elements. -/
def listLoop : Nat → List Char → Option (List Obj × List Char)
  | 0, _ => none
  | fuel + 1, c =>
      if isExprTok (next c).1 then
        match exprP fuel c with
        | none => none
        | some (o, c') =>
            match listLoop fuel c' with
            | none => none
            | some (os, c'') => some (o :: os, c'')
      else some ([], c)

end

/-- parse (lisp.c:3221-3223) / read (lisp.c:3225-3227). -/
def parseE (fuel : Nat) (c : List Char) : Option (Obj × List Char) := exprP fuel c

/-
Evaluator (lisp.c:2702-3094, 3229-3292).  Every function of the mutual
block takes a fuel argument; `none` means the fuel ran out or the C code
hit undefined behaviour (see the header comment).
-/

/-- user_defined_function_new (lisp.c:1795-1811): the captured environment
is a fresh child of the defining environment; `rest_arg` is the position
of the literal symbol `&` in the parameter list (or -1). -/
def user_defined_function_new (S : St) (e : Nat) (args body : Obj) : St × Obj :=
  let p := envNew S (some e)
  (p.1, .ufunc false (find (.sym ("&")) args) args body p.2)

/-- user_defined_macro_new (lisp.c:1813-1827). -/
def user_defined_mac_new (S : St) (e : Nat) (args body : Obj) : St × Obj :=
  let p := envNew S (some e)
  (p.1, .ufunc true (find (.sym ("&")) args) args body p.2)

/-- eval_quote_special_form (lisp.c:2728-2737): error unless exactly one
argument, else the argument unevaluated. -/
def eval_quote_sf (S : St) (obj : Obj) : St × Obj :=
  if cdr (cdr obj) ≠ .nil then (S, .err ("quote error: only 1 argument expected."))
  else (S, car (cdr obj))

/-- eval_lambda_special_form (lisp.c:2895-2901). -/
def eval_lambda_sf (S : St) (e : Nat) (obj : Obj) : St × Obj :=
  user_defined_function_new S e (car (cdr obj)) (car (cdr (cdr obj)))

/-- eval_macro_special_form (lisp.c:2903-2909). -/
def eval_mac_sf (S : St) (e : Nat) (obj : Obj) : St × Obj :=
  user_defined_mac_new S e (car (cdr obj)) (car (cdr (cdr obj)))

mutual

/-- eval (lisp.c:3229-3258): NULL evaluates to NULL; a symbol starting
with `:` is a keyword and self-evaluates; any other symbol is looked up
along the environment chain (`entry.value` is NULL when absent); a cons
goes to `eval_list`; everything else self-evaluates. -/
def eval : Nat → St → Nat → Obj → Option (St × Obj)
  | 0, _, _, _ => none
  | fuel + 1, S, e, obj =>
      match obj with
      | .nil => some (S, .nil)
      | .sym s => if isKeywordName s then some (S, .sym s) else some (S, envLookup S e s)
      | .cons a d => eval_list fuel S e (.cons a d)
      | x => some (S, x)
termination_by structural f x1 x2 x3 => f

/-- eval_list (lisp.c:3088-3094): special forms are dispatched, anything
else is a function call with macro expansion enabled. -/
def eval_list : Nat → St → Nat → Obj → Option (St × Obj)
  | 0, _, _, _ => none
  | fuel + 1, S, e, obj =>
      if isSpecialForm obj then eval_special_form fuel S e obj
      else eval_function_call fuel S e obj true
termination_by structural f x1 x2 x3 => f

/-- eval_special_form (lisp.c:2929-2962): the strcmp dispatch chain; the
fall-through returns NULL (unreachable, since `is_special_form` held). -/
def eval_special_form : Nat → St → Nat → Obj → Option (St × Obj)
  | 0, _, _, _ => none
  | fuel + 1, S, e, obj =>
      match car obj with
      | .sym s =>
          if s = "quote" then some (eval_quote_sf S obj)
          else if s = "quasiquote" then eval_qq_sf fuel S e obj
          else if s = "eval" then eval_eval_sf fuel S e obj
          else if s = "define" then eval_define_sf fuel S e obj
          else if s = "lambda" then some (eval_lambda_sf S e obj)
          else if s = "macro" then some (eval_mac_sf S e obj)
          else if s = "do" then doLoop fuel S e (cdr obj) .nil
          else if s = "let" then eval_let_sf fuel S e obj
          else if s = "set" then eval_set_sf fuel S e obj
          else if s = "if" then eval_if_sf fuel S e obj
          else some (S, .nil)
      | _ => none
termination_by structural f x1 x2 x3 => f

/-- eval_eval_special_form (lisp.c:2724-2726): evaluate the argument,
then evaluate the result. -/
def eval_eval_sf : Nat → St → Nat → Obj → Option (St × Obj)
  | 0, _, _, _ => none
  | fuel + 1, S, e, obj =>
      match eval fuel S e (car (cdr obj)) with
      | none => none
      | some (S₁, x) => eval fuel S₁ e x
termination_by structural f x1 x2 x3 => f

/-- eval_define_special_form (lisp.c:2794-2806): walk to the root frame,
evaluate the value in the current environment, bind in the root, return
NULL. -/
def eval_define_sf : Nat → St → Nat → Obj → Option (St × Obj)
  | 0, _, _, _ => none
  | fuel + 1, S, e, obj =>
      match envRoot S e with
      | none => none
      | some root =>
          match objStr (car (cdr obj)) with
          | none => none
          | some nm =>
              match eval fuel S e (car (cdr (cdr obj))) with
              | none => none
              | some (S₁, v) => some (envPut S₁ root nm v, .nil)
termination_by structural f x1 x2 x3 => f

/-- eval_let_special_form (lisp.c:2808-2828): allocate a child frame,
evaluate each binding value in the parent environment and bind it in the
child, then evaluate the body in the child. -/
def eval_let_sf : Nat → St → Nat → Obj → Option (St × Obj)
  | 0, _, _, _ => none
  | fuel + 1, S, e, obj =>
      let p := envNew S (some e)
      match letLoop fuel p.1 e p.2 (car (cdr obj)) with
      | none => none
      | some S₂ => eval fuel S₂ p.2 (car (cdr (cdr obj)))
termination_by structural f x1 x2 x3 => f

/-- The binding loop of eval_let_special_form (lisp.c:2818-2823). -/
def letLoop : Nat → St → Nat → Nat → Obj → Option St
  | 0, _, _, _, _ => none
  | fuel + 1, S, e, localE, temp =>
      if temp = .nil then some S
      else
        match objStr (car temp) with
        | none => none
        | some nm =>
            match eval fuel S e (car (cdr temp)) with
            | none => none
            | some (S₁, v) => letLoop fuel (envPut S₁ localE nm v) e localE (cdr (cdr temp))
termination_by structural f x1 x2 x3 x4 => f

/-- eval_set_special_form (lisp.c:2838-2861): the multi-binding variant
when the first argument is a cons, else the single variant; both bind in
the current frame and return NULL. -/
def eval_set_sf : Nat → St → Nat → Obj → Option (St × Obj)
  | 0, _, _, _ => none
  | fuel + 1, S, e, obj =>
      if isCons (car (cdr obj)) then setLoop fuel S e (cdr obj)
      else
        match objStr (car (cdr obj)) with
        | none => none
        | some nm =>
            match eval fuel S e (car (cdr (cdr obj))) with
            | none => none
            | some (S₁, v) => some (envPut S₁ e nm v, .nil)
termination_by structural f x1 x2 x3 => f

/-- The multi-binding loop of eval_set_special_form (lisp.c:2848-2854). -/
def setLoop : Nat → St → Nat → Obj → Option (St × Obj)
  | 0, _, _, _ => none
  | fuel + 1, S, e, temp =>
      if car temp = .nil then some (S, .nil)
      else
        match objStr (car (car temp)) with
        | none => none
        | some nm =>
            match eval fuel S e (car (cdr (car temp))) with
            | none => none
            | some (S₁, v) => setLoop fuel (envPut S₁ e nm v) e (cdr temp)
termination_by structural f x1 x2 x3 => f

/-- eval_if_special_form (lisp.c:2882-2893): evaluate the condition; if
truthy evaluate the then-branch, else the else-branch (the car of NULL,
i.e. NULL, when absent). -/
def eval_if_sf : Nat → St → Nat → Obj → Option (St × Obj)
  | 0, _, _, _ => none
  | fuel + 1, S, e, obj =>
      match eval fuel S e (car (cdr obj)) with
      | none => none
      | some (S₁, c) =>
          if isTruthy c then eval fuel S₁ e (car (cdr (cdr obj)))
          else eval fuel S₁ e (car (cdr (cdr (cdr obj))))
termination_by structural f x1 x2 x3 => f

/-- The body loop of eval_do_special_form (lisp.c:2911-2921): evaluate
each element while `car(temp) != NULL`, returning the last result (NULL
for an empty body). -/
def doLoop : Nat → St → Nat → Obj → Obj → Option (St × Obj)
  | 0, _, _, _, _ => none
  | fuel + 1, S, e, temp, res =>
      if car temp = .nil then some (S, res)
      else
        match eval fuel S e (car temp) with
        | none => none
        | some (S₁, r) => doLoop fuel S₁ e (cdr temp) r
termination_by structural f x1 x2 x3 x4 => f

/-- eval_quasiquote_special_form (lisp.c:2762-2792): deep-copy the
template, rewrite unquotes along the copy via `qqLoop`, and evaluate the
synthesised `(append (list (quote x1)) ... (list (quote xn)))` form. -/
def eval_qq_sf : Nat → St → Nat → Obj → Option (St × Obj)
  | 0, _, _, _ => none
  | fuel + 1, S, e, obj =>
      match qqLoop fuel S e (copy (car (cdr obj))) with
      | none => none
      | some (S₁, ws) => eval fuel S₁ e (.cons (.sym ("append")) (consBuild ws))
termination_by structural f x1 x2 x3 => f

/-- The template loop of eval_quasiquote_special_form (lisp.c:2777-2787):
for each spine cell, rewrite the element with `eval_unquote` and wrap it
as `(list (quote item))`. -/
def qqLoop : Nat → St → Nat → Obj → Option (St × List Obj)
  | 0, _, _, _ => none
  | fuel + 1, S, e, temp =>
      if temp = .nil then some (S, [])
      else
        match eval_unquote fuel S e (car temp) with
        | none => none
        | some (S₁, item) =>
            match qqLoop fuel S₁ e (cdr temp) with
            | none => none
            | some (S₂, rest) =>
                some (S₂,
                  .cons (.sym ("list"))
                    (.cons (.cons (.sym ("quote")) (.cons item .nil)) .nil) :: rest)
termination_by structural f x1 x2 x3 => f

/-- eval_unquote (lisp.c:2739-2753): an unquote form evaluates its
argument; otherwise every car along the spine is rewritten in place,
rendered purely by `uqSpine`. -/
def eval_unquote : Nat → St → Nat → Obj → Option (St × Obj)
  | 0, _, _, _ => none
  | fuel + 1, S, e, obj =>
      if isUnquote obj then eval fuel S e (car (cdr obj))
      else uqSpine fuel S e obj
termination_by structural f x1 x2 x3 => f

/-- The `while (is_type(temp, CONS)) setcar(temp, eval_unquote(...))` loop
of eval_unquote (lisp.c:2747-2750), rebuilding the spine purely. -/
def uqSpine : Nat → St → Nat → Obj → Option (St × Obj)
  | 0, _, _, _ => none
  | fuel + 1, S, e, t =>
      match t with
      | .cons a d =>
          match eval_unquote fuel S e a with
          | none => none
          | some (S₁, a2) =>
              match uqSpine fuel S₁ e d with
              | none => none
              | some (S₂, d2) => some (S₂, .cons a2 d2)
      | x => some (S, x)
termination_by structural f x1 x2 x3 => f

/-- eval_function_call (lisp.c:2970-3042): evaluate the head (NULL yields
the name error); read the callable header; evaluate the arguments (left
unevaluated for a macro); apply the rest-argument block when `rest_arg`
is set; allocate a fresh child frame of the current environment and
dispatch to the builtin pointer or to `function_wrapper`; finally, if the
callee was a macro and expansion is enabled, evaluate the result again in
the current environment. -/
def eval_function_call : Nat → St → Nat → Obj → Bool → Option (St × Obj)
  | 0, _, _, _, _ => none
  | fuel + 1, S, e, obj, em =>
      match eval fuel S e (car obj) with
      | none => none
      | some (S₁, f) =>
          if f = .nil then
            match objStr (car obj) with
            | none => none
            | some s => some (S₁, .err ("name error: function '" ++ s ++ "' is undefined"))
          else
            match fnInfo f with
            | none => none
            | some (isUser, isMac, restArg) =>
                let args := cdr obj
                let n := lengthObj args
                match evalArgs fuel S₁ e args isMac n 0 with
                | none => none
                | some (S₂, arr) =>
                    let arr2 := if restArg = -1 then arr else collectRest arr restArg.toNat n
                    let p := envNew S₂ (some e)
                    match (if isUser then function_wrapper fuel p.1 p.2 f arr2
                           else
                             match f with
                             | .bfunc _ nm => some (p.1, callBuiltin nm arr2)
                             | _ => none) with
                    | none => none
                    | some (S₄, res) =>
                        if em && isMac then eval fuel S₄ e res
                        else some (S₄, res)
termination_by structural f x1 x2 x3 x4 => f

/-- The argument loop of eval_function_call (lisp.c:2997-3010):
`while (car(temp) != NULL || i < arg_count)`, evaluating each argument
unless the callee is a macro. -/
def evalArgs : Nat → St → Nat → Obj → Bool → Nat → Nat → Option (St × List Obj)
  | 0, _, _, _, _, _, _ => none
  | fuel + 1, S, e, temp, isMac, n, i =>
      if car temp ≠ .nil ∨ i < n then
        match (if isMac then some (S, car temp) else eval fuel S e (car temp)) with
        | none => none
        | some (S₁, a) =>
            match evalArgs fuel S₁ e (cdr temp) isMac n (i + 1) with
            | none => none
            | some (S₂, rest) => some (S₂, a :: rest)
      else some (S, [])
termination_by structural f x1 x2 x3 x4 x5 x6 => f

/-- function_wrapper (lisp.c:2702-2722): bind the parameters into the
frame handed over by the caller, then evaluate the body there. -/
def function_wrapper : Nat → St → Nat → Obj → List Obj → Option (St × Obj)
  | 0, _, _, _, _ => none
  | fuel + 1, S, fid, f, args =>
      match f with
      | .ufunc _ _ params _body _ =>
          match bindLoop fid S params args 0 with
          | none => none
          | some S₁ => eval fuel S₁ fid _body
      | _ => none
termination_by structural f x1 x2 x3 x4 => f

end

/-- exec (lisp.c:3260-3292): parse and evaluate forms while input
remains; an error result is printed to the error sink (stderr), stdout
still receives one newline, and the loop breaks, skipping the remaining
forms; a nil result prints nothing; any other result is printed to stdout
with a newline.  The result triple is (store, stdout chunks, error-sink
chunks).  The garbage-collection trigger in the loop does not affect
values and is not modelled. -/
def exec : Nat → St → Nat → List Char → Option (St × List String × List String)
  | 0, _, _, _ => none
  | fuel + 1, S, e, cur =>
      if cur = [] then some (S, [], [])
      else
        match parseE fuel cur with
        | none => none
        | some (obj, cur₁) =>
            match eval fuel S e obj with
            | none => none
            | some (S₁, res) =>
                if isErr res then some (S₁, ["\n"], [fprintStr res])
                else
                  match exec fuel S₁ e cur₁ with
                  | none => none
                  | some (S₂, out, errOut) =>
                      some (S₂, (if res = .nil then [] else [fprintStr res ++ "\n"]) ++ out, errOut)

/-
Heap-level model of the mutating list primitives.  `setcar`/`setcdr`
overwrite a field of a shared heap cell, which is invisible to the pure
value model above, so they are modelled on an explicit heap: a list of
cells addressed by index (`Option Nat` is the possibly-NULL `Object*`)
together with the environment frames (whose bindings hold cell
addresses). -/

/-- The per-cell payload at the heap level. -/
inductive HData where
  | hnum (n : Int)
  | hsym (s : String)
  | hstr (s : String)
  | herr (s : String)
  | hcons (a d : Option Nat)
  | hbool (b : Bool)
  | hfun
  | hmac
deriving DecidableEq

/-- An environment frame at the heap level: names bound to cell
addresses. -/
structure HFrame where
  map : List (String × Option Nat)
  prev : Option Nat
deriving DecidableEq

/-- The heap: object cells and environment frames. -/
structure HHeap where
  objs : List HData
  envs : List HFrame
deriving DecidableEq

/-- `obj != NULL && obj->type == CONS`, the guard of setcar/setcdr
(lisp.c:2201, 2214). -/
def hIsCons (H : HHeap) : Option Nat → Bool
  | none => false
  | some p =>
      match H.objs.get? p with
      | some (.hcons _ _) => true
      | _ => false

/-- setcar (lisp.c:2200-2204): overwrite the car field when the target is
a cons, otherwise do nothing. -/
def hsetcar (H : HHeap) (o v : Option Nat) : HHeap :=
  match o with
  | some p =>
      match H.objs.get? p with
      | some (.hcons _ d) => ⟨H.objs.set p (.hcons v d), H.envs⟩
      | _ => H
  | none => H

/-- setcdr (lisp.c:2213-2217): overwrite the cdr field when the target is
a cons, otherwise do nothing. -/
def hsetcdr (H : HHeap) (o v : Option Nat) : HHeap :=
  match o with
  | some p =>
      match H.objs.get? p with
      | some (.hcons a _) => ⟨H.objs.set p (.hcons a v), H.envs⟩
      | _ => H
  | none => H

/-- builtin_setcar (lisp.c:3397-3400): mutate and return NULL. -/
def builtin_setcar (H : HHeap) (args : List (Option Nat)) : HHeap × Option Nat :=
  (hsetcar H (args.getD 0 none) (args.getD 1 none), none)

/-- builtin_setcdr (lisp.c:3406-3409): mutate and return NULL. -/
def builtin_setcdr (H : HHeap) (args : List (Option Nat)) : HHeap × Option Nat :=
  (hsetcdr H (args.getD 0 none) (args.getD 1 none), none)

/-
Concrete fixtures used by the claim theorems, their witnesses and their
counterexamples.
-/

/-- A store holding only an empty root frame (the state before `init_env`
populates it; none of the fixture programs below needs a builtin unless
stated). -/
def stRoot : St := [⟨[], none⟩]

/-- A root frame binding `list` and `append` to their builtins, the part
of `init_env` (lisp.c:3681, 3683) the quasiquote engine relies on. -/
def stQQ : St :=
  [⟨[("list", Obj.bfunc false .blist), ("append", Obj.bfunc false .bappend)], none⟩]

/-- A root frame binding `nil`, `append` and `list` as `init_env` does
(lisp.c:3668, 3681, 3683). -/
def stApp : St :=
  [⟨[("nil", Obj.nil), ("append", Obj.bfunc false .bappend),
     ("list", Obj.bfunc false .blist)], none⟩]

/-- A root frame binding `cons` (lisp.c:3678). -/
def stCons : St := [⟨[("cons", Obj.bfunc false .bcons)], none⟩]

/-- The quasiquote form `(quasiquote x)` the reader produces for a
backtick template. -/
def qqForm (x : Obj) : Obj := .cons (.sym ("quasiquote")) (.cons x .nil)

/-- The `(list (quote item))` wrapper the quasiquote loop builds around
each rewritten template element (lisp.c:2780-2782). -/
def wrapQQ (item : Obj) : Obj :=
  .cons (.sym ("list")) (.cons (.cons (.sym ("quote")) (.cons item .nil)) .nil)

/-- `(lambda () x)`. -/
def c1lam : Obj := .cons (.sym ("lambda")) (.cons .nil (.cons (.sym ("x")) .nil))

/-- `(let (x 1) (lambda () x))`. -/
def c1let : Obj :=
  .cons (.sym ("let"))
    (.cons (.cons (.sym ("x")) (.cons (.num 1) .nil)) (.cons c1lam .nil))

/-- `((let (x 1) (lambda () x)))`: build a closure over `x = 1` and call
it at the top level, where `x` is unbound. -/
def c1prog : Obj := .cons c1let .nil

/-- The store reached at the dispatch point of `c1prog`: frame 0 is the
root, frame 1 the `let` frame with `x = 1`, frame 2 the closure's
captured frame (child of 1, lisp.c:1802); frame 3 is the child frame of
the *captured* environment that the claim describes (with the function's
zero parameters bound).  Evaluating the body `x` there yields 1. -/
def c1claimStore : St :=
  [⟨[], none⟩, ⟨[("x", Obj.num 1)], some 0⟩, ⟨[], some 1⟩, ⟨[], some 2⟩]

/-- `(quote a b)`: a quote form with two arguments, which evaluates to an
error object. -/
def c2quoteAB : Obj :=
  .cons (.sym ("quote")) (.cons (.sym ("a")) (.cons (.sym ("b")) .nil))

/-- `(if (quote a b) 1 2)`: the condition evaluates to an error. -/
def c2prog : Obj := .cons (.sym ("if")) (.cons c2quoteAB (.cons (.num 1) (.cons (.num 2) .nil)))

/-- `(lambda (a b &) &)`. -/
def c4lam : Obj :=
  .cons (.sym ("lambda"))
    (.cons (objList [.sym ("a"), .sym ("b"), .sym ("&")]) (.cons (.sym ("&")) .nil))

/-- `((lambda (a b &) &) 1 2 3 4 5)`. -/
def c4prog : Obj := .cons c4lam (objList [.num 1, .num 2, .num 3, .num 4, .num 5])

/-- `(lambda (&) &)`. -/
def c4lam0 : Obj :=
  .cons (.sym ("lambda")) (.cons (objList [.sym ("&")]) (.cons (.sym ("&")) .nil))

/-- `((lambda (&) &))`: a rest-parameter function applied to no
arguments. -/
def c4prog0 : Obj := .cons c4lam0 .nil

/-- `(append nil (quote (1 2)))`. -/
def c7prog : Obj :=
  .cons (.sym ("append"))
    (.cons (.sym ("nil"))
      (.cons (.cons (.sym ("quote")) (.cons (objList [.num 1, .num 2]) .nil)) .nil))

mutual

/-- Templates over which the (amended) quasiquote round-trip law is
stated: the parser-producible data that contain no occurrence of the
symbol `unquote` — atoms (nil, numbers, strings, booleans, non-`unquote`
symbols) and, via `dTail`, nil-terminated lists of such elements. -/
def dElem : Obj → Bool
  | .nil => true
  | .num _ => true
  | .str _ => true
  | .bool _ => true
  | .sym s => s != "unquote"
  | .cons a d => dElem a && dTail d
  | _ => false

/-- The spine side of `dElem`: a nil-terminated spine of `dElem`
elements. -/
def dTail : Obj → Bool
  | .nil => true
  | .cons a d => dElem a && dTail d
  | _ => false

end

/-
Supporting lemmas.
-/

/-- `map_put` then `map_get` of the same key reads the stored value. -/
theorem mapGet_mapPut_self (m : List (String × Obj)) (k : String) (v : Obj) :
    mapGet (mapPut m k v) k = some v := by
  induction m with
  | nil => simp [mapPut, mapGet]
  | cons h t ih =>
      obtain ⟨k', v'⟩ := h
      by_cases hk : k' = k <;> simp [mapPut, mapGet, hk, ih]

/-- `map_put` leaves every other key's `map_get` unchanged. -/
theorem mapGet_mapPut_ne (m : List (String × Obj)) (k k' : String) (v : Obj)
    (h : k ≠ k') : mapGet (mapPut m k v) k' = mapGet m k' := by
  induction m with
  | nil => simp [mapPut, mapGet, h]
  | cons hd t ih =>
      obtain ⟨k₀, v₀⟩ := hd
      by_cases hk : k₀ = k <;> simp [mapPut, mapGet, hk, ih] <;> subst hk <;>
        simp [mapGet, h, ih]

/-- The binding loop on an all-symbol parameter list: it terminates,
rewrites the target frame's map with `bindMaps`, keeps its parent, and
touches no other frame. -/
theorem bindLoop_syms (fid : Nat) (ps : List String) :
    ∀ (S : St) (arr : List Obj) (i : Nat) (m : List (String × Obj)) (pv : Option Nat),
      S.get? fid = some ⟨m, pv⟩ →
      bindLoop fid S (objList (ps.map Obj.sym)) arr i =
        some (S.set fid ⟨bindMaps m ps arr i, pv⟩) ∧
      (S.set fid ⟨bindMaps m ps arr i, pv⟩).get? fid = some ⟨bindMaps m ps arr i, pv⟩ ∧
      (∀ q, q ≠ fid → (S.set fid ⟨bindMaps m ps arr i, pv⟩).get? q = S.get? q) := by
  induction ps with
  | nil =>
      intro S arr i m pv hf
      have hlt : fid < S.length := by
        rcases List.get?_eq_some.mp hf with ⟨hlt, _⟩
        exact hlt
      refine ⟨?_, ?_, ?_⟩
      · simp only [List.map_nil, objList, bindLoop, bindMaps]
        rw [show S.set fid ⟨m, pv⟩ = S from ?_]
        apply List.ext_get?
        intro q
        by_cases hq : q = fid
        · subst hq
          rw [List.get?_eq_getElem?, List.getElem?_set_self hlt, ← hf, List.get?_eq_getElem?]
        · rw [List.get?_eq_getElem?, List.getElem?_set_ne (Ne.symm hq), List.get?_eq_getElem?]
      · simp only [bindMaps]
        rw [List.get?_eq_getElem?, List.getElem?_set_self hlt]
      · intro q hq
        rw [List.get?_eq_getElem?, List.getElem?_set_ne (Ne.symm hq), List.get?_eq_getElem?]
  | cons p t ih =>
      intro S arr i m pv hf
      have hlt : fid < S.length := by
        rcases List.get?_eq_some.mp hf with ⟨hlt, _⟩
        exact hlt
      have hput : envPut S fid p (arr.getD i .nil) = S.set fid ⟨mapPut m p (arr.getD i .nil), pv⟩ := by
        unfold envPut
        rw [hf]
      have hget2 : (S.set fid ⟨mapPut m p (arr.getD i .nil), pv⟩).get? fid =
          some ⟨mapPut m p (arr.getD i .nil), pv⟩ := by
        rw [List.get?_eq_getElem?, List.getElem?_set_self hlt]
      have step := ih (S.set fid ⟨mapPut m p (arr.getD i .nil), pv⟩) arr (i + 1)
        (mapPut m p (arr.getD i .nil)) pv hget2
      have hset2 : (S.set fid ⟨mapPut m p (arr.getD i .nil), pv⟩).set fid
          ⟨bindMaps (mapPut m p (arr.getD i .nil)) t arr (i + 1), pv⟩ =
          S.set fid ⟨bindMaps (mapPut m p (arr.getD i .nil)) t arr (i + 1), pv⟩ := by
        rw [List.set_set]
      refine ⟨?_, ?_, ?_⟩
      · simp only [List.map_cons, objList, bindLoop, bindMaps, objStr]
        rw [if_neg (by simp), hput]
        simpa [hset2, bindMaps] using step.1
      · simpa [hset2, bindMaps] using step.2.1
      · intro q hq
        have h3 := step.2.2 q hq
        rw [hset2] at h3
        simp only [bindMaps]
        rw [h3]
        rw [List.get?_eq_getElem?, List.getElem?_set_ne (Ne.symm hq), List.get?_eq_getElem?]

/-- `bindMaps` over names not containing `p` does not change `p`'s
binding. -/
theorem bindMaps_notMem (ks : List String) :
    ∀ (m : List (String × Obj)) (arr : List Obj) (i : Nat) (p : String), p ∉ ks →
      mapGet (bindMaps m ks arr i) p = mapGet m p := by
  induction ks with
  | nil => intro m arr i p _; rfl
  | cons k t ih =>
      intro m arr i p hp
      simp only [List.mem_cons, not_or] at hp
      simp only [bindMaps]
      rw [ih _ arr (i + 1) p hp.2, mapGet_mapPut_ne _ _ _ _ (fun h => hp.1 h.symm)]

/-- After `bindMaps` over distinct names, the j-th name is bound to
`args[i+j]`. -/
theorem bindMaps_getD (ps : List String) :
    ∀ (m : List (String × Obj)) (arr : List Obj) (i j : Nat), j < ps.length → ps.Nodup →
      mapGet (bindMaps m ps arr i) (ps.getD j "") = some (arr.getD (i + j) .nil) := by
  induction ps with
  | nil => intro m arr i j hj _; simp at hj
  | cons p t ih =>
      intro m arr i j hj hnd
      rcases List.nodup_cons.mp hnd with ⟨hpt, hnd'⟩
      cases j with
      | zero =>
          have h0 : (p :: t).getD 0 "" = p := by simp [List.getD]
          simp only [bindMaps, h0]
          rw [bindMaps_notMem t _ arr (i + 1) p hpt, mapGet_mapPut_self]
          simp
      | succ j' =>
          simp only [bindMaps]
          have hs : (p :: t).getD (j' + 1) "" = t.getD j' "" := by
            simp [List.getD]
          rw [hs, ih _ arr (i + 1) j' (by simpa using hj) hnd']
          have hidx : i + 1 + j' = i + (j' + 1) := by omega
          rw [hidx]

/-- `blankFrom` only rewrites the window `[k, n)` to nil. -/
theorem blankFrom_get? (k n : Nat) :
    ∀ (arr : List Obj) (i j : Nat),
      (blankFrom k n arr i).get? j =
        (arr.get? j).map (fun a => if k ≤ i + j ∧ i + j < n then Obj.nil else a) := by
  intro arr
  induction arr with
  | nil => intro i j; simp [blankFrom]
  | cons a t ih =>
      intro i j
      cases j with
      | zero => simp [blankFrom]
      | succ j' =>
          simp only [blankFrom, List.get?_cons_succ]
          rw [ih]
          have : i + 1 + j' = i + (j' + 1) := by omega
          rw [this]

/-- `blankFrom` preserves the length. -/
theorem blankFrom_length (k n : Nat) :
    ∀ (arr : List Obj) (i : Nat), (blankFrom k n arr i).length = arr.length := by
  intro arr
  induction arr with
  | nil => intro i; rfl
  | cons a t ih => intro i; simp [blankFrom, ih]

/-- The collected rest slice is the drop of the argument array when the
rest position lies inside it. -/
theorem restSlice_drop (arr : List Obj) (k : Nat) (h : k ≤ arr.length) :
    restSlice arr k arr.length = arr.drop k := by
  apply List.ext_getElem?
  intro j
  simp only [restSlice, List.getElem?_map, List.getElem?_drop]
  by_cases hj : j < arr.length - k
  · have hk : k + j < arr.length := by omega
    rw [List.getElem?_range hj]
    simp [List.getD, List.getElem?_eq_getElem hk, List.get?_eq_getElem?]
  · have hr : (List.range (arr.length - k))[j]? = none :=
      List.getElem?_eq_none (by simpa using hj)
    rw [hr, List.getElem?_eq_none (by omega)]
    rfl

/-- The spine elements of a proper list are its elements. -/
theorem spineElems_objList : ∀ xs : List Obj, spineElems (objList xs) = xs := by
  intro xs
  induction xs with
  | nil => rfl
  | cons x t ih => simp [objList, spineElems, ih]

/-- `length` of a proper list counts its elements. -/
theorem lengthObj_objList : ∀ xs : List Obj, lengthObj (objList xs) = xs.length := by
  intro xs
  induction xs with
  | nil => rfl
  | cons x t ih => simp [objList, lengthObj, ih]

/-- builtin_append's scan on a prefix of conses followed by a non-nil
non-cons argument produces the type error naming the argument's position
and type. -/
theorem bappGo_err : ∀ (pre : List Obj) (i : Nat) (acc : List Obj) (x : Obj) (rest : List Obj),
    (∀ a ∈ pre, isCons a = true) → x ≠ .nil → isCons x = false →
    bappGo (pre ++ x :: rest) i acc =
      .err ("type error: append expects each argument to be a list but argument " ++
        toString (i + pre.length) ++ " is a " ++ typeName x ++ ".") := by
  intro pre
  induction pre with
  | nil =>
      intro i acc x rest _ hx hnc
      cases x <;> simp_all [bappGo, isCons]
  | cons p pt ih =>
      intro i acc x rest hall hx hnc
      have hp : isCons p = true := hall p (by simp)
      cases p with
      | cons a d =>
          rw [List.cons_append,
            show bappGo ((Obj.cons a d) :: (pt ++ x :: rest)) i acc =
              bappGo (pt ++ x :: rest) (i + 1) (acc ++ spineElems (.cons a d)) from rfl]
          rw [ih (i + 1) _ x rest (fun b hb => hall b (by simp [hb])) hx hnc]
          simp only [List.length_cons]
          rw [show i + 1 + pt.length = i + (pt.length + 1) from by omega]
      | _ => simp_all [isCons]

/-- A NULL argument terminates builtin_append's scan: the arguments after
it are ignored and the result is that of the preceding arguments alone. -/
theorem bappGo_nil_stop : ∀ (pre : List Obj) (i : Nat) (acc : List Obj) (rest : List Obj),
    (∀ a ∈ pre, isCons a = true) →
    bappGo (pre ++ .nil :: rest) i acc = bappGo pre i acc := by
  intro pre
  induction pre with
  | nil => intro i acc rest _; rfl
  | cons p pt ih =>
      intro i acc rest hall
      have hp : isCons p = true := hall p (by simp)
      cases p with
      | cons a d =>
          rw [List.cons_append,
            show bappGo ((Obj.cons a d) :: (pt ++ Obj.nil :: rest)) i acc =
              bappGo (pt ++ Obj.nil :: rest) (i + 1) (acc ++ spineElems (.cons a d)) from rfl,
            show bappGo ((Obj.cons a d) :: pt) i acc =
              bappGo pt (i + 1) (acc ++ spineElems (.cons a d)) from rfl]
          exact ih (i + 1) _ rest (fun b hb => hall b (by simp [hb]))
      | _ => simp_all [isCons]

/-- The string scanner never conjures a `)` into the remaining input. -/
theorem scanStrAux_noR : ∀ (l acc : List Char), ')' ∉ l → ')' ∉ (scanStrAux l acc).2 := by
  intro l
  induction l with
  | nil => intro acc h; simp [scanStrAux]
  | cons c rest ih =>
      intro acc h
      have h2 : ')' ∉ rest := fun hm => h (List.mem_cons_of_mem _ hm)
      by_cases hc : c = cDQuote
      · simp only [scanStrAux, if_pos hc]
        exact h
      · simp only [scanStrAux, if_neg hc]
        exact ih _ h2

/-- The symbol scanner never conjures a `)` into the remaining input. -/
theorem scanSymAux_noR : ∀ (l acc : List Char), ')' ∉ l → ')' ∉ (scanSymAux l acc).2 := by
  intro l
  induction l with
  | nil => intro acc h; simp [scanSymAux]
  | cons c rest ih =>
      intro acc h
      have h2 : ')' ∉ rest := fun hm => h (List.mem_cons_of_mem _ hm)
      by_cases hc : isSymCh c
      · simp only [scanSymAux, if_pos hc]
        exact ih _ h2
      · simp only [scanSymAux, if_neg hc]
        exact h

/-- The digit scanner never conjures a `)` into the remaining input. -/
theorem scanNumAux_noR : ∀ (l acc : List Char), ')' ∉ l → ')' ∉ (scanNumAux l acc).2 := by
  intro l
  induction l with
  | nil => intro acc h; simp [scanNumAux]
  | cons c rest ih =>
      intro acc h
      have h2 : ')' ∉ rest := fun hm => h (List.mem_cons_of_mem _ hm)
      by_cases hc : isNumCh c
      · simp only [scanNumAux, if_pos hc]
        exact ih _ h2
      · simp only [scanNumAux, if_neg hc]
        exact h

/-- scan_number preserves the absence of `)`. -/
theorem scanNumber_noR : ∀ l : List Char, ')' ∉ l → ')' ∉ (scanNumber l).2 := by
  intro l h
  cases l with
  | nil => simp [scanNumber]
  | cons c rest =>
      have h2 : ')' ∉ rest := fun hm => h (List.mem_cons_of_mem _ hm)
      by_cases hc : c = '-'
      · simp only [scanNumber, if_pos hc]
        rcases hs : scanNumAux rest [] with ⟨ds, r2⟩
        have hn := scanNumAux_noR rest [] h2
        rw [hs] at hn
        simpa [hs] using hn
      · simp only [scanNumber, if_neg hc]
        rcases hs : scanNumAux (c :: rest) [] with ⟨ds, r2⟩
        have hn := scanNumAux_noR (c :: rest) [] h
        rw [hs] at hn
        simpa [hs] using hn

/-- Dropping a character preserves the absence of `)`. -/
theorem dropOne_noR : ∀ l : List Char, ')' ∉ l → ')' ∉ dropOne l := by
  intro l h
  cases l with
  | nil => simp [dropOne]
  | cons c rest => simp only [List.mem_cons, not_or] at h; simpa [dropOne] using h.2

/-- On input without `)`, the lexer never produces an RPAREN token and
the remaining input still has no `)` — for `next` and for the comment
continuation alike. -/
theorem next_noR : ∀ l : List Char, ')' ∉ l →
    ((next l).1.type ≠ TokT.tRparen ∧ ')' ∉ (next l).2) ∧
    ((nextComment l).1.type ≠ TokT.tRparen ∧ ')' ∉ (nextComment l).2) := by
  intro l
  induction l with
  | nil => intro h; refine ⟨⟨by simp [next], by simp [next]⟩, ⟨by simp [nextComment], by simp [nextComment]⟩⟩
  | cons c rest ih =>
      intro h
      have hm := h
      simp only [List.mem_cons, not_or] at hm
      have hc : c ≠ ')' := fun x => hm.1 x.symm
      have hrest : ')' ∉ rest := hm.2
      have ihr := ih hrest
      constructor
      · simp only [next]
        by_cases h1 : c = '('
        · simp only [if_pos h1]
          exact ⟨by simp, hrest⟩
        simp only [if_neg h1]
        by_cases h2 : c = ')'
        · exact absurd h2 hc
        simp only [if_neg h2]
        by_cases h3 : c = cQuote
        · simp only [if_pos h3]
          exact ⟨by simp, hrest⟩
        simp only [if_neg h3]
        by_cases h4 : c = ','
        · simp only [if_pos h4]
          exact ⟨by simp, hrest⟩
        simp only [if_neg h4]
        by_cases h5 : c = cBTick
        · simp only [if_pos h5]
          exact ⟨by simp, hrest⟩
        simp only [if_neg h5]
        by_cases h6 : c = ' ' ∨ c = '\t' ∨ c = '\r' ∨ c = '\n'
        · simp only [if_pos h6]
          exact ihr.1
        simp only [if_neg h6]
        by_cases h7 : c = ';'
        · simp only [if_pos h7]
          exact ihr.2
        simp only [if_neg h7]
        by_cases h8 : (c = '-' ∧ isNumCh (headD0 rest)) ∨ isNumCh c
        · simp only [if_pos h8]
          rcases hsn : scanNumber (c :: rest) with ⟨v, r2⟩
          have hn := scanNumber_noR (c :: rest) h
          rw [hsn] at hn
          exact ⟨by simp, hn⟩
        simp only [if_neg h8]
        by_cases h9 : isStrCh c
        · simp only [if_pos h9]
          rcases hss : scanStrAux rest [] with ⟨v, r2⟩
          have hn := scanStrAux_noR rest [] hrest
          rw [hss] at hn
          exact ⟨by simp, dropOne_noR r2 hn⟩
        simp only [if_neg h9]
        by_cases h10 : isSymCh c
        · simp only [if_pos h10]
          rcases hsy : scanSymAux (c :: rest) [] with ⟨v, r2⟩
          have hn := scanSymAux_noR (c :: rest) [] h
          rw [hsy] at hn
          exact ⟨by simp, hn⟩
        simp only [if_neg h10]
        exact ⟨by simp, by simp⟩
      · simp only [nextComment]
        by_cases h1 : c = '\n'
        · simp only [if_pos h1]
          exact ihr.1
        · simp only [if_neg h1]
          exact ihr.2

/-- On input without `)`: every parser production leaves the remaining
input without `)`, and `list` — whose element loop can then only stop at
EOF — returns an error object. -/
theorem parser_noR : ∀ fuel : Nat,
    (∀ c r c2, ')' ∉ c → exprP fuel c = some (r, c2) → ')' ∉ c2) ∧
    (∀ c r c2, ')' ∉ c → quoteP fuel c = some (r, c2) → ')' ∉ c2) ∧
    (∀ c r c2, ')' ∉ c → uqP fuel c = some (r, c2) → ')' ∉ c2) ∧
    (∀ c r c2, ')' ∉ c → qqP fuel c = some (r, c2) → ')' ∉ c2) ∧
    (∀ c r c2, ')' ∉ c → atomP fuel c = some (r, c2) → ')' ∉ c2) ∧
    (∀ c r c2, ')' ∉ c → listP fuel c = some (r, c2) → isErr r = true ∧ ')' ∉ c2) ∧
    (∀ c es c2, ')' ∉ c → listLoop fuel c = some (es, c2) → ')' ∉ c2) := by
  intro fuel
  induction fuel with
  | zero =>
      refine ⟨?_, ?_, ?_, ?_, ?_, ?_, ?_⟩ <;> intro c r c2 h hh <;> simp_all [exprP, quoteP, uqP, qqP, atomP, listP, listLoop]
  | succ n ih =>
      obtain ⟨ihe, ihq, ihu, ihqq, iha, ihl, ihll⟩ := ih
      refine ⟨?_, ?_, ?_, ?_, ?_, ?_, ?_⟩
      · intro c r c2 h hh
        simp only [exprP] at hh
        split_ifs at hh
        · exact ihq c r c2 h hh
        · exact ihqq c r c2 h hh
        · exact ihu c r c2 h hh
        · exact (ihl c r c2 h hh).2
        · exact iha c r c2 h hh
      · intro c r c2 h hh
        simp only [quoteP] at hh
        cases he : exprP n (next c).2 with
        | none => rw [he] at hh; exact absurd hh (by simp)
        | some p =>
            obtain ⟨o, c3⟩ := p
            rw [he] at hh
            simp only [Option.some.injEq, Prod.mk.injEq] at hh
            rw [← hh.2]
            exact ihe _ o c3 ((next_noR c h).1.2) he
      · intro c r c2 h hh
        simp only [uqP] at hh
        cases he : exprP n (next c).2 with
        | none => rw [he] at hh; exact absurd hh (by simp)
        | some p =>
            obtain ⟨o, c3⟩ := p
            rw [he] at hh
            simp only [Option.some.injEq, Prod.mk.injEq] at hh
            rw [← hh.2]
            exact ihe _ o c3 ((next_noR c h).1.2) he
      · intro c r c2 h hh
        simp only [qqP] at hh
        cases he : exprP n (next c).2 with
        | none => rw [he] at hh; exact absurd hh (by simp)
        | some p =>
            obtain ⟨o, c3⟩ := p
            rw [he] at hh
            simp only [Option.some.injEq, Prod.mk.injEq] at hh
            rw [← hh.2]
            exact ihe _ o c3 ((next_noR c h).1.2) he
      · intro c r c2 h hh
        simp only [atomP] at hh
        rcases hn : next c with ⟨t, c3⟩
        rw [hn] at hh
        simp only [Option.some.injEq, Prod.mk.injEq] at hh
        rw [← hh.2]
        have := (next_noR c h).1.2
        rw [hn] at this
        exact this
      · intro c r c2 h hh
        simp only [listP] at hh
        have hc1 : ')' ∉ (next c).2 := (next_noR c h).1.2
        have ht : (next (next c).2).1.type ≠ TokT.tRparen := (next_noR (next c).2 hc1).1.1
        rw [if_neg ht] at hh
        cases hl : listLoop n (next c).2 with
        | none =>
            simp only [hl] at hh
            exact absurd hh (by simp)
        | some p =>
            obtain ⟨es, c4⟩ := p
            simp only [hl] at hh
            have hc4 : ')' ∉ c4 := ihll _ es c4 hc1 hl
            have ht2 : (next c4).1.type ≠ TokT.tRparen := (next_noR c4 hc4).1.1
            rw [if_neg ht2] at hh
            simp only [Option.some.injEq, Prod.mk.injEq] at hh
            refine ⟨?_, ?_⟩
            · rw [← hh.1]
              rfl
            · rw [← hh.2]
              exact (next_noR c4 hc4).1.2
      · intro c es c2 h hh
        simp only [listLoop] at hh
        split_ifs at hh
        · cases he : exprP n c with
          | none =>
              simp only [he] at hh
              exact absurd hh (by simp)
          | some p =>
              obtain ⟨o, c3⟩ := p
              simp only [he] at hh
              cases hl : listLoop n c3 with
              | none =>
                  simp only [hl] at hh
                  exact absurd hh (by simp)
              | some q =>
                  obtain ⟨os, c4⟩ := q
                  simp only [hl, Option.some.injEq, Prod.mk.injEq] at hh
                  rw [← hh.2]
                  exact ihll _ os c4 (ihe _ o c3 h he) hl
        · simp only [Option.some.injEq, Prod.mk.injEq] at hh
          rw [← hh.2]
          exact h

/-- Rebuilding a proper spine from its cars gives the spine back. -/
theorem spineCars_objList_inv : ∀ x : Obj, dTail x = true → objList (spineCars x) = x := by
  intro x
  induction x with
  | cons a d iha ihd =>
      intro h
      have hd : dTail d = true := by
        have := h
        simp [dTail, Bool.and_eq_true] at this
        exact this.2
      simp [spineCars, objList, ihd hd]
  | nil => intro h; rfl
  | num n => intro h; simp [dTail] at h
  | sym s => intro h; simp [dTail] at h
  | str s => intro h; simp [dTail] at h
  | err s => intro h; simp [dTail] at h
  | bool b => intro h; simp [dTail] at h
  | ufunc m r p b e => intro h; simp [dTail] at h
  | bfunc m nm => intro h; simp [dTail] at h

/-- On datum spines, `copy` collects exactly the original elements. -/
theorem copyElems_datum : ∀ x : Obj, dTail x = true → copyElems x = spineCars x := by
  intro x
  induction x with
  | cons a d iha ihd =>
      intro h
      have hsplit : dElem a = true ∧ dTail d = true := by
        have := h
        simp [dTail, Bool.and_eq_true] at this
        exact this
      cases a with
      | cons x y =>
          have hta : dTail (Obj.cons x y) = true := by
            have := hsplit.1
            simp only [dElem] at this
            simpa [dTail] using this
          rw [show copyElems ((Obj.cons x y).cons d) =
            consBuild (copyElems (Obj.cons x y)) :: copyElems d from rfl]
          rw [ihd hsplit.2, iha hta]
          have hcb : consBuild (spineCars (Obj.cons x y)) = Obj.cons x y := by
            rw [show spineCars (Obj.cons x y) = x :: spineCars y from rfl]
            rw [show consBuild (x :: spineCars y) = objList (x :: spineCars y) from rfl]
            rw [show (objList (x :: spineCars y) : Obj) = objList (spineCars (Obj.cons x y)) from rfl]
            exact spineCars_objList_inv _ hta
          rw [hcb]
          rfl
      | nil => simp [copyElems, spineCars, ihd hsplit.2]
      | num n => simp [copyElems, spineCars, ihd hsplit.2]
      | sym s => simp [copyElems, spineCars, ihd hsplit.2]
      | str s => simp [copyElems, spineCars, ihd hsplit.2]
      | err s => simp [copyElems, spineCars, ihd hsplit.2]
      | bool b => simp [copyElems, spineCars, ihd hsplit.2]
      | ufunc m r p b e => simp [copyElems, spineCars, ihd hsplit.2]
      | bfunc m nm => simp [copyElems, spineCars, ihd hsplit.2]
  | nil => intro h; rfl
  | num n => intro h; rfl
  | sym s => intro h; rfl
  | str s => intro h; rfl
  | err s => intro h; rfl
  | bool b => intro h; rfl
  | ufunc m r p b e => intro h; rfl
  | bfunc m nm => intro h; rfl

/-- `copy` of a proper datum list is the identity (in the value model:
the copy is structurally equal to the original). -/
theorem copy_datum (x : Obj) (hc : isCons x = true) (hd : dElem x = true) : copy x = x := by
  cases x with
  | cons a d =>
      have hta : dTail (Obj.cons a d) = true := by
        simp only [dElem] at hd
        simpa [dTail] using hd
      rw [copy, copyElems_datum _ hta]
      have : spineCars (Obj.cons a d) = a :: spineCars d := rfl
      rw [this, show consBuild (a :: spineCars d) = objList (a :: spineCars d) from rfl]
      rw [show objList (a :: spineCars d) = objList (spineCars (Obj.cons a d)) from rfl]
      exact spineCars_objList_inv _ hta
  | _ => simp [isCons] at hc

/-- A datum is never an unquote form. -/
theorem dElem_not_unquote (t : Obj) (h : dElem t = true) : isUnquote t = false := by
  cases t with
  | cons a d =>
      cases a with
      | sym s =>
          simp only [dElem, Bool.and_eq_true] at h
          have : s ≠ "unquote" := by simpa [dElem] using h.1
          simp [isUnquote, this]
      | _ => simp [isUnquote]
  | _ => simp [isUnquote]

/-
Environment-store stability: under well-formedness the chain walk of
env_get neither depends on the exact fuel (as long as it exceeds the
start frame) nor on frames appended after the reachable chain.
-/

/-- `envGetAux` is fuel-irrelevant above the start frame id. -/
theorem envGetAux_fuel (S : St) (k : String) (hwf : EnvWF S) :
    ∀ (e : Nat) (f1 f2 : Nat), e < f1 → e < f2 →
      envGetAux f1 S (some e) k = envGetAux f2 S (some e) k := by
  intro e
  induction e using Nat.strong_induction_on with
  | _ e ih =>
      intro f1 f2 h1 h2
      obtain ⟨g1, rfl⟩ : ∃ g, f1 = g + 1 := ⟨f1 - 1, by omega⟩
      obtain ⟨g2, rfl⟩ : ∃ g, f2 = g + 1 := ⟨f2 - 1, by omega⟩
      simp only [envGetAux]
      cases hf : S.get? e with
      | none => rfl
      | some fr =>
          show (match mapGet fr.map k with
                | some v => some v
                | none => envGetAux g1 S fr.prev k) =
            (match mapGet fr.map k with
                | some v => some v
                | none => envGetAux g2 S fr.prev k)
          cases hm : mapGet fr.map k with
          | some v => rfl
          | none =>
              show envGetAux g1 S fr.prev k = envGetAux g2 S fr.prev k
              cases hp : fr.prev with
              | none => cases g1 <;> cases g2 <;> rfl
              | some p =>
                  have hpe : p < e := hwf e fr p hf hp
                  exact ih p hpe g1 g2 (by omega) (by omega)

/-- Appending frames does not change lookups that start inside the
well-formed prefix. -/
theorem envGetAux_append (S ext : St) (k : String) (hwf : EnvWF S) :
    ∀ (e : Nat) (fuel : Nat), e < S.length → e < fuel →
      envGetAux fuel (S ++ ext) (some e) k = envGetAux fuel S (some e) k := by
  intro e
  induction e using Nat.strong_induction_on with
  | _ e ih =>
      intro fuel he hf
      obtain ⟨g, rfl⟩ : ∃ g, fuel = g + 1 := ⟨fuel - 1, by omega⟩
      simp only [envGetAux]
      have hgetS : (S ++ ext).get? e = S.get? e := by
        rw [List.get?_eq_getElem?, List.get?_eq_getElem?, List.getElem?_append_left he]
      rw [hgetS]
      cases hfr : S.get? e with
      | none => rfl
      | some fr =>
          show (match mapGet fr.map k with
                | some v => some v
                | none => envGetAux g (S ++ ext) fr.prev k) =
            (match mapGet fr.map k with
                | some v => some v
                | none => envGetAux g S fr.prev k)
          cases hm : mapGet fr.map k with
          | some v => rfl
          | none =>
              show envGetAux g (S ++ ext) fr.prev k = envGetAux g S fr.prev k
              cases hp : fr.prev with
              | none => cases g <;> rfl
              | some p =>
                  have hpe : p < e := hwf e fr p hfr hp
                  exact ih p hpe g (by omega) (by omega)

/-- `envGet` is stable under appending frames. -/
theorem envGet_append (S ext : St) (e : Nat) (k : String)
    (hwf : EnvWF S) (he : e < S.length) :
    envGet (S ++ ext) e k = envGet S e k := by
  unfold envGet
  rw [envGetAux_append S ext k hwf e ((S ++ ext).length + 1) he (by simp; omega)]
  exact envGetAux_fuel S k hwf e _ _ (by simp; omega) (by omega)

/-- Appending frames whose parent sits inside the store preserves
well-formedness. -/
theorem envWF_append (S : St) (e : Nat) (n : Nat)
    (hwf : EnvWF S) (he : e < S.length) :
    EnvWF (S ++ List.replicate n (⟨[], some e⟩ : Frame)) := by
  intro i f p hget hp
  rw [List.get?_eq_getElem?] at hget
  by_cases hi : i < S.length
  · rw [List.getElem?_append_left hi] at hget
    rw [← List.get?_eq_getElem?] at hget
    exact hwf i f p hget hp
  · rw [List.getElem?_append_right (by omega)] at hget
    have hrep : f = ⟨[], some e⟩ := by
      have hlt : i - S.length < n := by
        by_contra hge
        rw [List.getElem?_eq_none (by simpa using Nat.le_of_not_lt hge)] at hget
        exact absurd hget (by simp)
      rw [List.getElem?_replicate, if_pos hlt] at hget
      exact (Option.some.injEq _ _ ▸ hget).symm
    subst hrep
    have hpe : some e = some p := hp
    have hep : e = p := by injection hpe
    omega

/-- A cons on a datum spine is itself a datum element. -/
theorem dTail_dElem (t : Obj) (h : dTail t = true) (hc : isCons t = true) :
    dElem t = true := by
  cases t <;> simp_all [dTail, dElem, isCons]

/-- A builtin `list` call with one non-nil-terminated slot. -/
theorem builtin_list_single (t : Obj) : builtin_list [t] = .cons t .nil := by
  cases t <;> rfl

/-- eval_unquote / uqSpine are the identity (store included) on datum
templates: no unquote form occurs, so nothing is evaluated. -/
theorem uq_datum : ∀ fuel : Nat,
    (∀ S e t S' r, dElem t = true →
      eval_unquote fuel S e t = some (S', r) → S' = S ∧ r = t) ∧
    (∀ S e t S' r, (isCons t = true → dElem t = true) →
      uqSpine fuel S e t = some (S', r) → S' = S ∧ r = t) := by
  intro fuel
  induction fuel with
  | zero =>
      constructor
      · intro S e t S' r _ h; exact Option.noConfusion h
      · intro S e t S' r _ h; exact Option.noConfusion h
  | succ n ih =>
      constructor
      · intro S e t S' r hd h
        replace h : (if isUnquote t then eval n S e (car (cdr t))
            else uqSpine n S e t) = some (S', r) := h
        rw [dElem_not_unquote t hd] at h
        simp only [Bool.false_eq_true, if_false] at h
        exact ih.2 S e t S' r (fun _ => hd) h
      · intro S e t S' r hd h
        cases t with
        | cons a d =>
            have hda : dElem a = true ∧ dTail d = true := by
              have := hd rfl
              simpa [dElem, Bool.and_eq_true] using this
            replace h : (match eval_unquote n S e a with
              | none => none
              | some (S₁, a2) =>
                  match uqSpine n S₁ e d with
                  | none => none
                  | some (S₂, d2) => some (S₂, Obj.cons a2 d2)) = some (S', r) := h
            cases h1 : eval_unquote n S e a with
            | none => rw [h1] at h; exact Option.noConfusion h
            | some p =>
                obtain ⟨S₁, a2⟩ := p
                simp only [h1] at h
                cases h2 : uqSpine n S₁ e d with
                | none => rw [h2] at h; exact Option.noConfusion h
                | some q =>
                    obtain ⟨S₂, d2⟩ := q
                    simp only [h2, Option.some.injEq, Prod.mk.injEq] at h
                    have hq := ih.1 S e a S₁ a2 hda.1 h1
                    have hr := ih.2 S₁ e d S₂ d2 (fun hc => dTail_dElem d hda.2 hc) h2
                    constructor
                    · rw [← h.1, hr.1, hq.1]
                    · rw [← h.2, hq.2, hr.2]
        | nil =>
            replace h : (some (S, Obj.nil) : Option (St × Obj)) = some (S', r) := h
            simp only [Option.some.injEq, Prod.mk.injEq] at h
            exact ⟨h.1.symm, h.2.symm⟩
        | num v =>
            replace h : (some (S, Obj.num v) : Option (St × Obj)) = some (S', r) := h
            simp only [Option.some.injEq, Prod.mk.injEq] at h
            exact ⟨h.1.symm, h.2.symm⟩
        | sym s =>
            replace h : (some (S, Obj.sym s) : Option (St × Obj)) = some (S', r) := h
            simp only [Option.some.injEq, Prod.mk.injEq] at h
            exact ⟨h.1.symm, h.2.symm⟩
        | str s =>
            replace h : (some (S, Obj.str s) : Option (St × Obj)) = some (S', r) := h
            simp only [Option.some.injEq, Prod.mk.injEq] at h
            exact ⟨h.1.symm, h.2.symm⟩
        | err s =>
            replace h : (some (S, Obj.err s) : Option (St × Obj)) = some (S', r) := h
            simp only [Option.some.injEq, Prod.mk.injEq] at h
            exact ⟨h.1.symm, h.2.symm⟩
        | bool b =>
            replace h : (some (S, Obj.bool b) : Option (St × Obj)) = some (S', r) := h
            simp only [Option.some.injEq, Prod.mk.injEq] at h
            exact ⟨h.1.symm, h.2.symm⟩
        | ufunc m rr p b ee =>
            replace h : (some (S, Obj.ufunc m rr p b ee) : Option (St × Obj)) = some (S', r) := h
            simp only [Option.some.injEq, Prod.mk.injEq] at h
            exact ⟨h.1.symm, h.2.symm⟩
        | bfunc m nm =>
            replace h : (some (S, Obj.bfunc m nm) : Option (St × Obj)) = some (S', r) := h
            simp only [Option.some.injEq, Prod.mk.injEq] at h
            exact ⟨h.1.symm, h.2.symm⟩

/-- The quasiquote template loop on a datum spine: the store is unchanged
and every spine element comes back wrapped as `(list (quote item))`. -/
theorem qq_loop_datum : ∀ fuel S e t S' ws, dTail t = true →
    qqLoop fuel S e t = some (S', ws) →
    S' = S ∧ ws = (spineCars t).map wrapQQ := by
  intro fuel
  induction fuel with
  | zero => intro S e t S' ws _ h; exact Option.noConfusion h
  | succ n ih =>
      intro S e t S' ws hd h
      by_cases ht : t = Obj.nil
      · subst ht
        replace h : (some (S, ([] : List Obj)) : Option (St × List Obj)) = some (S', ws) := h
        simp only [Option.some.injEq, Prod.mk.injEq] at h
        exact ⟨h.1.symm, by simp [h.2.symm, spineCars]⟩
      · cases t with
        | cons a d =>
            have hsplit : dElem a = true ∧ dTail d = true := by
              simpa [dTail, Bool.and_eq_true] using hd
            replace h : (match eval_unquote n S e a with
              | none => none
              | some (S₁, item) =>
                  match qqLoop n S₁ e d with
                  | none => none
                  | some (S₂, rest) =>
                      some (S₂,
                        Obj.cons (Obj.sym ("list"))
                          (Obj.cons (Obj.cons (Obj.sym ("quote")) (Obj.cons item Obj.nil)) Obj.nil) :: rest)) =
                some (S', ws) := h
            cases h1 : eval_unquote n S e a with
            | none => rw [h1] at h; exact Option.noConfusion h
            | some p =>
                obtain ⟨S₁, item⟩ := p
                simp only [h1] at h
                cases h2 : qqLoop n S₁ e d with
                | none => rw [h2] at h; exact Option.noConfusion h
                | some q =>
                    obtain ⟨S₂, rest⟩ := q
                    simp only [h2, Option.some.injEq, Prod.mk.injEq] at h
                    have hq := (uq_datum n).1 S e a S₁ item hsplit.1 h1
                    have hr := ih S₁ e d S₂ rest hsplit.2 h2
                    constructor
                    · rw [← h.1, hr.1, hq.1]
                    · rw [← h.2, hq.2, hr.2]
                      rfl
        | nil => exact absurd rfl ht
        | num v => exact absurd hd (by simp [dTail])
        | sym s => exact absurd hd (by simp [dTail])
        | str s => exact absurd hd (by simp [dTail])
        | err s => exact absurd hd (by simp [dTail])
        | bool b => exact absurd hd (by simp [dTail])
        | ufunc m rr p b ee => exact absurd hd (by simp [dTail])
        | bfunc m nm => exact absurd hd (by simp [dTail])

/-- Evaluating `(list (quote t))` with `list` bound to its builtin:
one fresh frame (the child of `e` made for the call) is appended and the
result is the one-element list `(t)`. -/
theorem eval_wrapQQ (S : St) (e : Nat) (t : Obj)
    (hl : envGet S e ("list") = some (.bfunc false .blist)) :
    ∀ fuel S' r, eval fuel S e (wrapQQ t) = some (S', r) →
      S' = S ++ [⟨[], some e⟩] ∧ r = Obj.cons t Obj.nil := by
  intro fuel S' r h
  cases fuel with
  | zero => exact Option.noConfusion h
  | succ a =>
  cases a with
  | zero => exact Option.noConfusion h
  | succ b =>
  cases b with
  | zero => exact Option.noConfusion h
  | succ c =>
  cases c with
  | zero => exact Option.noConfusion h
  | succ d =>
  replace h : eval_function_call (d + 1 + 1) S e (wrapQQ t) true = some (S', r) := h
  have hhead : eval (d + 1) S e (Obj.sym ("list")) = some (S, Obj.bfunc false BName.blist) := by
    show some (S, (envGet S e ("list")).getD Obj.nil) = _
    rw [hl]; rfl
  simp only [eval_function_call, wrapQQ, car, cdr, lengthObj, hhead] at h
  rw [if_neg (by simp : ¬(Obj.bfunc false BName.blist = Obj.nil))] at h
  simp only [fnInfo] at h
  cases d with
  | zero => exact Option.noConfusion h
  | succ g1 =>
  cases g1 with
  | zero => exact Option.noConfusion h
  | succ g2 =>
  cases g2 with
  | zero => exact Option.noConfusion h
  | succ g =>
  have hargs : evalArgs (g + 1 + 1 + 1 + 1) S e
      (((Obj.sym ("quote")).cons (t.cons Obj.nil)).cons Obj.nil) false (0 + 1) 0 =
      some (S, [t]) := rfl
  simp only [hargs, Bool.false_eq_true, if_false, if_true, Bool.and_false, callBuiltin,
    envNew, builtin_list_single] at h
  simp only [Option.some.injEq, Prod.mk.injEq] at h
  exact ⟨h.1.symm, h.2.symm⟩

/-- The argument loop on the synthesised `(list (quote x))` forms: each
call appends one fresh frame (child of `e`) and yields the singleton list
of its item; the collected array is the items each wrapped in one cons. -/
theorem evalArgs_wrapQQ (e : Nat) :
    ∀ (items : List Obj) (fuel : Nat) (S : St) (i : Nat) (S' : St) (arr : List Obj),
      EnvWF S → e < S.length →
      envGet S e ("list") = some (.bfunc false .blist) →
      evalArgs fuel S e (objList (items.map wrapQQ)) false (i + items.length) i = some (S', arr) →
      S' = S ++ List.replicate items.length (⟨[], some e⟩ : Frame) ∧
      arr = items.map (fun t => Obj.cons t Obj.nil) := by
  intro items
  induction items with
  | nil =>
      intro fuel S i S' arr hwf he hl h
      cases fuel with
      | zero => exact Option.noConfusion h
      | succ f =>
          simp only [List.map_nil, List.length_nil, objList, Nat.add_zero] at h
          have hred : evalArgs (f + 1) S e Obj.nil false i i = some (S, ([] : List Obj)) := by
            simp only [evalArgs]
            rw [if_neg (by simp [car] : ¬(car Obj.nil ≠ Obj.nil ∨ i < i))]
          rw [hred] at h
          simp only [Option.some.injEq, Prod.mk.injEq] at h
          simp only [List.length_nil, List.replicate, List.append_nil, List.map_nil]
          exact ⟨h.1.symm, h.2.symm⟩
  | cons t rest ih =>
      intro fuel S i S' arr hwf he hl h
      cases fuel with
      | zero => exact Option.noConfusion h
      | succ f =>
          simp only [evalArgs] at h
          rw [if_pos (Or.inr (by simp only [List.length_cons]; omega :
            i < i + List.length (t :: rest)))] at h
          simp only [Bool.false_eq_true, if_false, List.map_cons, objList, car, cdr] at h
          cases h1 : eval f S e (wrapQQ t) with
          | none => rw [h1] at h; exact Option.noConfusion h
          | some p =>
              obtain ⟨S₁, a⟩ := p
              simp only [h1] at h
              have hq := eval_wrapQQ S e t hl f S₁ a h1
              have hn : i + List.length (t :: rest) = (i + 1) + rest.length := by
                simp only [List.length_cons]; omega
              rw [hn] at h
              cases h2 : evalArgs f S₁ e (objList (List.map wrapQQ rest)) false
                  ((i + 1) + rest.length) (i + 1) with
              | none => rw [h2] at h; exact Option.noConfusion h
              | some q =>
                  obtain ⟨S₂, rest2⟩ := q
                  simp only [h2, Option.some.injEq, Prod.mk.injEq] at h
                  have hwf1 : EnvWF S₁ := by
                    rw [hq.1]
                    have := envWF_append S e 1 hwf he
                    simpa using this
                  have he1 : e < S₁.length := by
                    rw [hq.1]; simp; omega
                  have hl1 : envGet S₁ e ("list") = some (.bfunc false .blist) := by
                    rw [hq.1, envGet_append S _ e _ hwf he, hl]
                  have hr := ih f S₁ (i + 1) S₂ rest2 hwf1 he1 hl1 h2
                  constructor
                  · rw [← h.1, hr.1, hq.1]
                    simp [List.length_cons, List.replicate_succ, List.append_assoc]
                  · rw [← h.2, hq.2, hr.2]
                    rfl

/-- builtin_append on an array of one-element lists concatenates the
elements onto the accumulator. -/
theorem bappGo_singletons :
    ∀ (items : List Obj) (i : Nat) (acc : List Obj),
      bappGo (items.map (fun t => Obj.cons t Obj.nil)) i acc = consBuild (acc ++ items) := by
  intro items
  induction items with
  | nil => intro i acc; simp [bappGo]
  | cons t rest ih =>
      intro i acc
      rw [show (List.map (fun t => Obj.cons t Obj.nil) (t :: rest)) =
        (Obj.cons t Obj.nil) :: (rest.map (fun t => Obj.cons t Obj.nil)) from rfl]
      rw [show bappGo ((Obj.cons t Obj.nil) :: rest.map (fun t => Obj.cons t Obj.nil)) i acc =
        bappGo (rest.map (fun t => Obj.cons t Obj.nil)) (i + 1) (acc ++ spineElems (Obj.cons t Obj.nil)) from rfl]
      rw [show spineElems (Obj.cons t Obj.nil) = [t] from rfl]
      rw [ih]
      simp [List.append_assoc]

/-
Claim theorems.
-/

/-- Claim C1, counterexample.  The claim says a user-defined function's
body is evaluated in a fresh child frame of the *captured* environment.
The program `((let (x 1) (lambda () x)))` builds a closure whose captured
frame (frame 2) sits below the `let` frame with `x = 1`; evaluating the
body `x` in a child of the captured frame (frame 3 of `c1claimStore`, the
evaluation the claim prescribes) yields 1, but the evaluator returns nil,
because it dispatches in a child of the *call-site* environment
(`env_new(env)`, lisp.c:3033), where `x` is unbound. -/
theorem claim_c1_counterexample :
    (eval 50 stRoot 0 c1prog).map (fun p => p.2) = some Obj.nil ∧
    (eval 50 c1claimStore 3 (.sym ("x"))).map (fun p => p.2) = some (Obj.num 1) ∧
    Obj.nil ≠ Obj.num 1 := by
  refine ⟨by rfl, by rfl, by decide⟩

/-- Claim C1 as amended: for every application of a user-defined,
non-macro function (here with no rest parameter), the evaluator allocates
a fresh child frame of the environment *of the call site* `e` (not the
captured environment), binds each parameter name to its corresponding
evaluated argument in that frame (`bindLoop`, and part two: on distinct
symbol parameters the fresh frame maps the i-th parameter to the i-th
argument, its parent stays the call-site environment, and no other frame
changes), and evaluates the function's body in that child frame. -/
theorem claim_c1_amended :
    (∀ (n : Nat) (S : St) (e : Nat) (obj : Obj) (S₁ : St) (params body : Obj)
        (cap : Nat) (S₂ : St) (arr : List Obj) (em : Bool),
      eval (n + 1) S e (car obj) = some (S₁, .ufunc false (-1) params body cap) →
      evalArgs (n + 1) S₁ e (cdr obj) false (lengthObj (cdr obj)) 0 = some (S₂, arr) →
      eval_function_call (n + 2) S e obj em =
        match bindLoop S₂.length (S₂ ++ [⟨[], some e⟩]) params arr 0 with
        | none => none
        | some S₃ => eval n S₃ S₂.length body) ∧
    (∀ (S : St) (fid : Nat) (ps : List String) (arr : List Obj) (m0 : List (String × Obj))
        (pv : Option Nat),
      S.get? fid = some ⟨m0, pv⟩ → m0 = [] → ps.Nodup →
      ∃ S', bindLoop fid S (objList (ps.map Obj.sym)) arr 0 = some S' ∧
        S'.get? fid = some ⟨bindMaps m0 ps arr 0, pv⟩ ∧
        (∀ j, j < ps.length →
          mapGet (bindMaps m0 ps arr 0) (ps.getD j "") = some (arr.getD j .nil)) ∧
        (∀ q, q ≠ fid → S'.get? q = S.get? q)) := by
  constructor
  · intro n S e obj S₁ params body cap S₂ arr em h1 h2
    simp only [eval_function_call, h1]
    rw [if_neg (by simp)]
    simp only [fnInfo, h2]
    norm_num
    simp only [envNew, function_wrapper]
    cases hb : bindLoop S₂.length (S₂ ++ [⟨[], some e⟩]) params arr 0 with
    | none => rfl
    | some S₃ =>
        show (match eval n S₃ S₂.length body with
              | none => none
              | some (S₄, res) => some (S₄, res)) = eval n S₃ S₂.length body
        cases he : eval n S₃ S₂.length body with
        | none => rfl
        | some p => obtain ⟨S₄, res⟩ := p; rfl
  · intro S fid ps arr m0 pv hf hm0 hnd
    obtain ⟨hrun, hget, hother⟩ := bindLoop_syms fid ps S arr 0 m0 pv hf
    refine ⟨S.set fid ⟨bindMaps m0 ps arr 0, pv⟩, hrun, hget, ?_, hother⟩
    intro j hj
    have := bindMaps_getD ps m0 arr 0 j hj hnd
    simpa using this

/-- Witness for C1's amended theorem: `((lambda (y) y) 7)` evaluated in
the bare root store; part one rewrites the call to the body evaluation in
the fresh frame 2 (child of call-site frame 0), and part two instantiated
there shows `y` gets bound to 7 in that frame. -/
theorem claim_c1_witness :
    eval_function_call 22 stRoot 0
        (.cons (.cons (.sym ("lambda")) (.cons (.cons (.sym ("y")) .nil) (.cons (.sym ("y")) .nil)))
          (.cons (.num 7) .nil)) true =
      some ([⟨[], none⟩, ⟨[], some 0⟩, ⟨[("y", Obj.num 7)], some 0⟩], .num 7) ∧
    mapGet (bindMaps [] [("y")] [Obj.num 7] 0) (("y")) = some (Obj.num 7) := by
  constructor
  · have h1 : eval 21 stRoot 0
        (car (.cons (.cons (.sym ("lambda")) (.cons (.cons (.sym ("y")) .nil) (.cons (.sym ("y")) .nil)))
          (.cons (.num 7) .nil))) =
        some ([⟨[], none⟩, ⟨[], some 0⟩], .ufunc false (-1) (.cons (.sym ("y")) .nil) (.sym ("y")) 1) := by
      rfl
    have h2 : evalArgs 21 [⟨[], none⟩, ⟨[], some 0⟩] 0
        (cdr (.cons (.cons (.sym ("lambda")) (.cons (.cons (.sym ("y")) .nil) (.cons (.sym ("y")) .nil)))
          (.cons (.num 7) .nil))) false 1 0 = some ([⟨[], none⟩, ⟨[], some 0⟩], [Obj.num 7]) := by
      rfl
    have := claim_c1_amended.1 20 stRoot 0 _ _ _ _ _ _ _ true h1 h2
    rw [this]
    rfl
  · have h0 : ([⟨([] : List (String × Obj)), none⟩] : St).get? 0 = some ⟨[], none⟩ := rfl
    obtain ⟨S', _, _, hj, _⟩ := claim_c1_amended.2 [⟨[], none⟩] 0 [("y")] [Obj.num 7] [] none h0 rfl (by simp)
    simpa using hj 0 (by simp)

/-- Claim C2, counterexample.  The claim says an Error from any
sub-expression is returned unchanged by the enclosing expression; but
`(if (quote a b) 1 2)` — whose condition `(quote a b)` evaluates to the
arity error — evaluates to 2: `is_truthy` treats the error as false and
the else-branch is taken, so the error is swallowed, not propagated. -/
theorem claim_c2_counterexample :
    eval 30 stRoot 0 c2quoteAB = some (stRoot, .err ("quote error: only 1 argument expected.")) ∧
    eval 30 stRoot 0 c2prog = some (stRoot, .num 2) ∧
    Obj.num 2 ≠ Obj.err ("quote error: only 1 argument expected.") := by
  refine ⟨by rfl, by rfl, by decide⟩

/-- Claim C2 as amended: sub-expression Errors are ordinary values and
are not automatically propagated; at the top level however, when the next
form of the batch evaluates to an Error, `exec` prints that error to the
error sink, stdout receives only the bare newline, and the remaining
forms of the batch are skipped: the result is independent of the rest of
the input (`cur2` does not occur in the conclusion). -/
theorem claim_c2_amended :
    ∀ (n : Nat) (S : St) (e : Nat) (cur : List Char) (obj : Obj) (cur2 : List Char)
      (S₁ : St) (r : Obj),
      cur ≠ [] →
      parseE n cur = some (obj, cur2) →
      eval n S e obj = some (S₁, r) →
      isErr r = true →
      exec (n + 1) S e cur = some (S₁, ["\n"], [fprintStr r]) := by
  intro n S e cur obj cur2 S₁ r h0 h1 h2 h3
  simp [exec, h0, h1, h2, h3]

/-- Witness for C2's amended theorem: the batch
`(quote a b) (cons 1 2)` stops at the first form's arity error; the
second form is never evaluated and nothing but the newline reaches
stdout. -/
theorem claim_c2_witness :
    exec 61 stCons 0 (("(quote a b) (cons 1 2)").toList) =
      some (stCons, ["\n"], ["quote error: only 1 argument expected."]) := by
  have h1 : parseE 60 (("(quote a b) (cons 1 2)").toList) =
      some (c2quoteAB, (" (cons 1 2)").toList) := by rfl
  have h2 : eval 60 stCons 0 c2quoteAB =
      some (stCons, .err ("quote error: only 1 argument expected.")) := by rfl
  have h := claim_c2_amended 60 stCons 0 _ _ _ _ _ (by decide) h1 h2 rfl
  simpa [fprintStr] using h

/-- Claim C4, counterexample.  The claim commits every call with a `&`
parameter to binding, at the rest position, the proper list of the
arguments from `rest_index` onward; for `((lambda (&) &))` that
collection is empty, so the claim predicts nil (the empty list), but the
code binds the one-element list `(nil)` (a `(nil . nil)` cell): the
collection loop never runs and the freshly allocated cell survives
(lisp.c:3013, 3025). -/
theorem claim_c4_counterexample :
    (eval 60 stRoot 0 c4prog0).map (fun p => p.2) = some (Obj.cons .nil .nil) ∧
    Obj.cons .nil .nil ≠ Obj.nil := by
  refine ⟨by rfl, by decide⟩

/-- Claim C4 as amended: when at least one argument lies at or after the
rest position `k`, the rest-argument block stores at position `k` the
proper list of the arguments from `k` onward and leaves every position
left of `k` unchanged (those parameters receive the first `k`
arguments); with no such argument the one-element list `(nil)` is stored
instead; and in particular `((lambda (a b &) &) 1 2 3 4 5)` returns the
list `(3 4 5)`. -/
theorem claim_c4_amended :
    (∀ (arr : List Obj) (k : Nat), k < arr.length →
      (collectRest arr k arr.length).getD k .nil = objList (arr.drop k) ∧
      (∀ j, j < k → (collectRest arr k arr.length).getD j .nil = arr.getD j .nil)) ∧
    (∀ (arr : List Obj) (k n : Nat), n ≤ k →
      (collectRest arr k n).getD k .nil = .cons .nil .nil) ∧
    (eval 60 stRoot 0 c4prog).map (fun p => p.2) =
      some (objList [.num 3, .num 4, .num 5]) := by
  refine ⟨?_, ?_, by rfl⟩
  · intro arr k hk
    have hbl : (blankFrom k arr.length arr 0).length = arr.length :=
      blankFrom_length k arr.length arr 0
    have hpad : (blankFrom k arr.length arr 0 ++
        List.replicate (k + 1 - (blankFrom k arr.length arr 0).length) Obj.nil) =
        blankFrom k arr.length arr 0 := by
      rw [hbl, show k + 1 - arr.length = 0 from by omega]
      simp
    constructor
    · simp only [collectRest, hpad]
      rw [List.getD, List.get?_eq_getElem?, List.getElem?_set_self (by omega : k < (blankFrom k arr.length arr 0).length)]
      rw [restSlice_drop arr k (by omega)]
      have hne : arr.drop k ≠ [] := by
        intro hd
        have := List.length_drop k arr ▸ congrArg List.length hd
        simp at this
        omega
      cases hd : arr.drop k with
      | nil => exact absurd hd hne
      | cons x t => simp [consBuild]
    · intro j hj
      simp only [collectRest, hpad]
      rw [List.getD, List.get?_eq_getElem?, List.getElem?_set_ne (by omega : k ≠ j)]
      have hbf := blankFrom_get? k arr.length arr 0 j
      simp only [List.get?_eq_getElem?] at hbf
      rw [hbf, List.getD, List.get?_eq_getElem?]
      cases ha : arr[j]? with
      | none => simp [ha]
      | some a =>
          simp only [Option.map_some', Option.getD_some]
          rw [if_neg (by omega : ¬(k ≤ 0 + j ∧ 0 + j < arr.length))]
  · intro arr k n hnk
    have hbl : (blankFrom k n arr 0).length = arr.length := blankFrom_length k n arr 0
    have hrs : restSlice arr k n = [] := by
      simp [restSlice, show n - k = 0 from by omega]
    have hklt : k < (blankFrom k n arr 0 ++
        List.replicate (k + 1 - (blankFrom k n arr 0).length) Obj.nil).length := by
      simp only [List.length_append, List.length_replicate, hbl]
      omega
    simp only [collectRest, hrs]
    rw [List.getD, List.get?_eq_getElem?, List.getElem?_set_self hklt]
    rfl

/-- Witness for C4's amended theorem at `arr = [1,2,3,4,5]`, `k = 2` (the
`(lambda (a b &) ...)` call of the claim) and at the empty-rest edge. -/
theorem claim_c4_witness :
    (collectRest [Obj.num 1, .num 2, .num 3, .num 4, .num 5] 2 5).getD 2 .nil =
      objList [.num 3, .num 4, .num 5] ∧
    (collectRest [Obj.num 1, .num 2, .num 3, .num 4, .num 5] 2 5).getD 0 .nil = .num 1 ∧
    (collectRest [] 0 0).getD 0 .nil = .cons .nil .nil := by
  refine ⟨?_, ?_, ?_⟩
  · exact (claim_c4_amended.1 [Obj.num 1, .num 2, .num 3, .num 4, .num 5] 2 (by decide)).1
  · exact (claim_c4_amended.1 [Obj.num 1, .num 2, .num 3, .num 4, .num 5] 2 (by decide)).2 0 (by decide)
  · exact claim_c4_amended.2.1 [] 0 0 (by decide)

/-- Claim C5: a value is falsy exactly when it is nil, the boolean false,
an error, or a number ≤ 0, and truthy otherwise; and the `if` special
form evaluates its then-branch precisely when the evaluated condition is
truthy and its else-branch otherwise (the else-branch slot of a
three-element `(if c t)` form is `car(NULL) = NULL`, so instantiating
`el := Obj.nil` is the absent-else case, and `eval` of nil is nil). -/
theorem claim_c5 :
    (∀ v : Obj, isTruthy v = false ↔
      (v = .nil ∨ v = .bool false ∨ (∃ s, v = .err s) ∨ ∃ n : Int, n ≤ 0 ∧ v = .num n)) ∧
    (∀ (n : Nat) (S : St) (e : Nat) (c t el : Obj),
      eval (n + 4) S e (.cons (.sym ("if")) (.cons c (.cons t (.cons el .nil)))) =
        match eval n S e c with
        | none => none
        | some p => if isTruthy p.2 then eval n p.1 e t else eval n p.1 e el) := by
  constructor
  · intro v
    cases v with
    | num n =>
        simp only [isTruthy, decide_eq_false_iff_not, not_lt]
        constructor
        · intro h
          exact Or.inr (Or.inr (Or.inr ⟨n, h, rfl⟩))
        · rintro (h | h | ⟨s, h⟩ | ⟨m, hm, h⟩) <;> simp_all
    | bool b => cases b <;> simp [isTruthy]
    | _ => simp [isTruthy]
  · intro n S e c t el
    simp only [eval, eval_list, isSpecialForm, car, cdr, eval_special_form, eval_if_sf]
    norm_num
    cases h : eval n S e c with
    | none => rfl
    | some p => rfl

/-- Claim C7, counterexample.  The claim says append of a nil argument
returns an Error; but a NULL argument terminates builtin_append's
`while (args[i] != NULL)` scan (lisp.c:3487) before the type check ever
sees it: `(append nil (quote (1 2)))` returns the one-element list
`(nil)` — the surviving freshly allocated cell — which is neither an
error nor the concatenation `(1 2)`. -/
theorem claim_c7_counterexample :
    builtin_append [.nil, objList [.num 1, .num 2]] = .cons .nil .nil ∧
    (eval 60 stApp 0 c7prog).map (fun p => p.2) = some (Obj.cons .nil .nil) ∧
    isErr (Obj.cons .nil .nil) = false ∧
    Obj.cons .nil .nil ≠ objList [.num 1, .num 2] := by
  refine ⟨by rfl, by rfl, by rfl, by decide⟩

/-- Claim C7 as amended: for nonempty proper lists `a` and `b` (cons
cells — the empty list is nil and terminates the scan instead),
`(append a b)` returns their concatenation, and its length is the sum of
the lengths; every *non-nil* argument that is not a cons produces a type
error naming its position; a nil argument instead terminates the
argument scan, so the arguments before it alone determine the result. -/
theorem claim_c7_amended :
    (∀ ts us : List Obj, ts ≠ [] → us ≠ [] →
      builtin_append [objList ts, objList us] = objList (ts ++ us) ∧
      lengthObj (builtin_append [objList ts, objList us]) =
        lengthObj (objList ts) + lengthObj (objList us)) ∧
    (∀ (pre : List Obj) (x : Obj) (rest : List Obj),
      (∀ a ∈ pre, isCons a = true) → x ≠ .nil → isCons x = false →
      builtin_append (pre ++ x :: rest) =
        .err ("type error: append expects each argument to be a list but argument " ++
          toString pre.length ++ " is a " ++ typeName x ++ ".")) ∧
    (∀ (pre : List Obj) (rest : List Obj),
      (∀ a ∈ pre, isCons a = true) →
      builtin_append (pre ++ .nil :: rest) = builtin_append pre) := by
  refine ⟨?_, ?_, ?_⟩
  · intro ts us hts hus
    obtain ⟨t0, tr, rfl⟩ : ∃ t0 tr, ts = t0 :: tr := by
      cases ts with
      | nil => exact absurd rfl hts
      | cons a b => exact ⟨a, b, rfl⟩
    obtain ⟨u0, ur, rfl⟩ : ∃ u0 ur, us = u0 :: ur := by
      cases us with
      | nil => exact absurd rfl hus
      | cons a b => exact ⟨a, b, rfl⟩
    have h1 : builtin_append [objList (t0 :: tr), objList (u0 :: ur)] =
        bappGo [objList (u0 :: ur)] 1 ((t0 :: tr)) := by
      show bappGo [objList (t0 :: tr), objList (u0 :: ur)] 0 [] = _
      rw [show objList (t0 :: tr) = Obj.cons t0 (objList tr) from rfl]
      rw [show bappGo (Obj.cons t0 (objList tr) :: [objList (u0 :: ur)]) 0 [] =
        bappGo [objList (u0 :: ur)] 1 ([] ++ spineElems (.cons t0 (objList tr))) from rfl]
      rw [show spineElems (Obj.cons t0 (objList tr)) = spineElems (objList (t0 :: tr)) from rfl]
      rw [spineElems_objList]
      rfl
    have h2 : bappGo [objList (u0 :: ur)] 1 (t0 :: tr) =
        consBuild ((t0 :: tr) ++ (u0 :: ur)) := by
      rw [show objList (u0 :: ur) = Obj.cons u0 (objList ur) from rfl]
      rw [show bappGo [Obj.cons u0 (objList ur)] 1 (t0 :: tr) =
        bappGo [] 2 ((t0 :: tr) ++ spineElems (.cons u0 (objList ur))) from rfl]
      rw [show spineElems (Obj.cons u0 (objList ur)) = spineElems (objList (u0 :: ur)) from rfl]
      rw [spineElems_objList]
      rfl
    have h3 : consBuild ((t0 :: tr) ++ (u0 :: ur)) = objList ((t0 :: tr) ++ (u0 :: ur)) := rfl
    refine ⟨h1.trans (h2.trans h3), ?_⟩
    rw [h1.trans (h2.trans h3), lengthObj_objList, lengthObj_objList, lengthObj_objList]
    simp only [List.length_append, List.length_cons]
  · intro pre x rest hall hx hnc
    have := bappGo_err pre 0 [] x rest hall hx hnc
    simpa [builtin_append] using this
  · intro pre rest hall
    exact bappGo_nil_stop pre 0 [] rest hall

/-- Witness for C7's amended theorem at concrete inputs: `(1) ++ (2 3)`,
a number in argument position 1, and a nil argument after one list. -/
theorem claim_c7_witness :
    builtin_append [objList [.num 1], objList [.num 2, .num 3]] =
      objList [.num 1, .num 2, .num 3] ∧
    builtin_append [objList [.num 1], .num 5] =
      .err ("type error: append expects each argument to be a list but argument 1 is a number.") ∧
    builtin_append [objList [.num 1], .nil, .num 7] = builtin_append [objList [.num 1]] := by
  refine ⟨?_, ?_, ?_⟩
  · exact (claim_c7_amended.1 [Obj.num 1] [Obj.num 2, .num 3] (by decide) (by decide)).1
  · exact claim_c7_amended.2.1 [objList [.num 1]] (.num 5) [] (by decide) (by decide) (by decide)
  · exact claim_c7_amended.2.2 [objList [.num 1]] [Obj.num 7] (by decide)

/-- Claim C8: when a list form opened by `(` is never closed — the
remaining input contains no `)` at all — any result the parser produces
is an error object (`syntax error: missing expected ')'`), not an abort
or exception: the element loop can only stop at the EOF token, and
`list` then rejects it (lisp.c:3159-3161).  (The fueled embedding
returns `none` only when fuel runs out; the witness shows the parser
does return, with the error, at a concrete unclosed input.) -/
theorem claim_c8 (fuel : Nat) (s : List Char) (r : Obj) (s2 : List Char)
    (h : ')' ∉ s) (hp : parseE fuel ('(' :: s) = some (r, s2)) : isErr r = true := by
  cases fuel with
  | zero => exact absurd hp (by simp [parseE, exprP])
  | succ n =>
      have hno : ')' ∉ '(' :: s := by
        simp only [List.mem_cons, not_or]
        exact ⟨by decide, h⟩
      have hnext : next ('(' :: s) = (⟨.tLparen, "("⟩, s) := rfl
      simp only [parseE, exprP, hnext] at hp
      norm_num at hp
      exact ((parser_noR n).2.2.2.2.2.1 ('(' :: s) r s2 hno hp).1

/-- Witness for C8: parsing `(12` (no closing paren before end of input)
returns the syntax-error object. -/
theorem claim_c8_witness :
    parseE 50 ('(' :: ("12").toList) = some (.err ("syntax error: missing expected ')'"), []) ∧
    isErr (Obj.err ("syntax error: missing expected ')'")) = true := by
  have hp : parseE 50 ('(' :: ("12").toList) =
      some (.err ("syntax error: missing expected ')'"), []) := by rfl
  exact ⟨hp, claim_c8 50 (("12").toList) _ _ (by decide) hp⟩

/-- Claim C9: `car` and `cdr` (and their builtin wrappers, which receive
the value as `args[0]`) return NULL for every non-cons argument — nil,
numbers, strings, symbols, booleans, errors, functions and macros alike —
never an error. -/
theorem claim_c9 (v : Obj) (h : isCons v = false) :
    car v = .nil ∧ cdr v = .nil ∧ builtin_car [v] = .nil ∧ builtin_cdr [v] = .nil := by
  cases v <;> simp_all [isCons, car, cdr, builtin_car, builtin_cdr, argGet]

/-- Witness for C9 at a concrete non-cons input. -/
theorem claim_c9_witness :
    isCons (Obj.num 7) = false ∧ car (Obj.num 7) = .nil ∧ builtin_car [Obj.num 7] = .nil := by
  refine ⟨rfl, ?_, ?_⟩
  · exact (claim_c9 (Obj.num 7) rfl).1
  · exact (claim_c9 (Obj.num 7) rfl).2.2.1

/-- Claim C10, no-op half and mutation half in one statement: on a
non-cons target (NULL included) `setcar`/`setcdr` and their builtin
wrappers change nothing at all and the builtins return NULL; on a cons
cell at address `p`, `setcar` replaces only the car field of cell `p`
(`setcdr` only the cdr field), every other heap cell is untouched, the
environment frames (hence every binding) are untouched, and the builtins
return NULL. -/
theorem claim_c10 :
    (∀ (H : HHeap) (o v : Option Nat), hIsCons H o = false →
      builtin_setcar H [o, v] = (H, none) ∧ builtin_setcdr H [o, v] = (H, none)) ∧
    (∀ (H : HHeap) (p : Nat) (a d : Option Nat) (v : Option Nat),
      H.objs.get? p = some (.hcons a d) →
      (builtin_setcar H [some p, v]).2 = none ∧
      (builtin_setcar H [some p, v]).1.objs.get? p = some (.hcons v d) ∧
      (∀ q, q ≠ p → (builtin_setcar H [some p, v]).1.objs.get? q = H.objs.get? q) ∧
      (builtin_setcar H [some p, v]).1.envs = H.envs ∧
      (builtin_setcdr H [some p, v]).2 = none ∧
      (builtin_setcdr H [some p, v]).1.objs.get? p = some (.hcons a v) ∧
      (∀ q, q ≠ p → (builtin_setcdr H [some p, v]).1.objs.get? q = H.objs.get? q) ∧
      (builtin_setcdr H [some p, v]).1.envs = H.envs) := by
  constructor
  · intro H o v h
    cases o with
    | none => exact ⟨rfl, rfl⟩
    | some p =>
        simp only [hIsCons] at h
        have e1 : hsetcar H (some p) v = H := by
          unfold hsetcar
          cases hg : H.objs.get? p with
          | none => simp only [hg]
          | some c =>
              rw [hg] at h
              cases c <;> simp_all [hg]
        have e2 : hsetcdr H (some p) v = H := by
          unfold hsetcdr
          cases hg : H.objs.get? p with
          | none => simp only [hg]
          | some c =>
              rw [hg] at h
              cases c <;> simp_all [hg]
        exact ⟨by simp [builtin_setcar, argGet, e1], by simp [builtin_setcdr, argGet, e2]⟩
  · intro H p a d v h
    have hp : p < H.objs.length := by
      rcases List.get?_eq_some.mp h with ⟨hlt, _⟩
      exact hlt
    have hb1 : builtin_setcar H [some p, v] = (hsetcar H (some p) v, none) := rfl
    have hb2 : builtin_setcdr H [some p, v] = (hsetcdr H (some p) v, none) := rfl
    have e1 : hsetcar H (some p) v = ⟨H.objs.set p (.hcons v d), H.envs⟩ := by
      unfold hsetcar
      simp only [h]
    have e2 : hsetcdr H (some p) v = ⟨H.objs.set p (.hcons a v), H.envs⟩ := by
      unfold hsetcdr
      simp only [h]
    rw [hb1, hb2, e1, e2]
    refine ⟨rfl, ?_, ?_, rfl, rfl, ?_, ?_, rfl⟩
    · rw [List.get?_eq_getElem?]
      exact List.getElem?_set_self hp
    · intro q hq
      rw [List.get?_eq_getElem?, List.get?_eq_getElem?]
      exact List.getElem?_set_ne (Ne.symm hq)
    · rw [List.get?_eq_getElem?]
      exact List.getElem?_set_self hp
    · intro q hq
      rw [List.get?_eq_getElem?, List.get?_eq_getElem?]
      exact List.getElem?_set_ne (Ne.symm hq)

/-- Witness for C10 at concrete inputs: a two-cell heap where cell 1 is
`(0 . 0)`; `setcar` on the number cell 0 is a no-op, `setcar` of NULL
into cell 1 changes exactly that cell's car. -/
theorem claim_c10_witness :
    hIsCons ⟨[HData.hnum 3, HData.hcons (some 0) (some 0)], []⟩ (some 0) = false ∧
    builtin_setcar ⟨[HData.hnum 3, HData.hcons (some 0) (some 0)], []⟩ [some 0, none] =
      (⟨[HData.hnum 3, HData.hcons (some 0) (some 0)], []⟩, none) ∧
    (builtin_setcar ⟨[HData.hnum 3, HData.hcons (some 0) (some 0)], []⟩
        [some 1, none]).1.objs.get? 1 = some (.hcons none (some 0)) := by
  refine ⟨rfl, ?_, ?_⟩
  · exact (claim_c10.1 ⟨[HData.hnum 3, HData.hcons (some 0) (some 0)], []⟩ (some 0) none rfl).1
  · exact (claim_c10.2 ⟨[HData.hnum 3, HData.hcons (some 0) (some 0)], []⟩ 1 (some 0) (some 0) none rfl).2.1

/-- Claim C6: a (non-keyword) symbol bound in no frame of the chain
evaluates to nil in isolation (`entry.value` is NULL, lisp.c:3243-3244);
and an application whose head symbol evaluates to nil — in particular an
unbound one — returns the fresh error
`name error: function '<name>' is undefined` (lisp.c:2987-2991), with the
arguments left unevaluated and the store untouched. -/
theorem claim_c6 :
    (∀ (n : Nat) (S : St) (e : Nat) (s : String),
      isKeywordName s = false → envGet S e s = none →
      eval (n + 1) S e (.sym s) = some (S, .nil)) ∧
    (∀ (n : Nat) (S : St) (e : Nat) (s : String) (args : Obj),
      isKeywordName s = false →
      isSpecialForm (.cons (.sym s) args) = false →
      envLookup S e s = .nil →
      eval (n + 4) S e (.cons (.sym s) args) =
        some (S, .err ("name error: function '" ++ s ++ "' is undefined"))) := by
  constructor
  · intro n S e s h1 h2
    simp [eval, h1, envLookup, h2]
  · intro n S e s args h1 h2 h3
    simp [eval, eval_list, h2, eval_function_call, car, objStr, h1, h3]

/-- Witness for C6 at concrete inputs: `zzz` is unbound in the bare root
store; `(foo 1)` with `foo` unbound yields the name error. -/
theorem claim_c6_witness :
    eval 9 stRoot 0 (.sym ("zzz")) = some (stRoot, .nil) ∧
    eval 12 stRoot 0 (.cons (.sym ("foo")) (.cons (.num 1) .nil)) =
      some (stRoot, .err ("name error: function 'foo' is undefined")) := by
  constructor
  · exact claim_c6.1 8 stRoot 0 ("zzz") rfl rfl
  · exact claim_c6.2 8 stRoot 0 ("foo") (.cons (.num 1) .nil) rfl rfl rfl

/-- Claim C3 as amended: the quasiquote round-trip law holds for the
nonempty proper lists among the unquote-free templates — for every store
with `list` and `append` bound to their builtins, whenever
`(quasiquote x)` returns for a cons-shaped unquote-free datum `x`, the
result is `x` itself.  (For atoms the law fails, see the
counterexample: the copy step leaves the `(nil . nil)` cell.) -/
theorem claim_c3_amended (S : St) (e : Nat) (x : Obj)
    (hwf : EnvWF S) (he : e < S.length)
    (hlist : envGet S e ("list") = some (.bfunc false .blist))
    (happend : envGet S e ("append") = some (.bfunc false .bappend))
    (hx : isCons x = true) (hd : dElem x = true) :
    ∀ fuel S' r, eval fuel S e (qqForm x) = some (S', r) → r = x := by
  intro fuel S' r h
  cases fuel with
  | zero => exact Option.noConfusion h
  | succ a =>
  cases a with
  | zero => exact Option.noConfusion h
  | succ b =>
  cases b with
  | zero => exact Option.noConfusion h
  | succ c =>
  cases c with
  | zero => exact Option.noConfusion h
  | succ d =>
  replace h : (match qqLoop d S e (copy x) with
    | none => none
    | some (S₁, ws) => eval d S₁ e (Obj.cons (Obj.sym ("append")) (consBuild ws))) = some (S', r) := h
  rw [copy_datum x hx hd] at h
  have hdt : dTail x = true := by
    cases x <;> simp_all [dElem, dTail, isCons]
  cases h0 : qqLoop d S e x with
  | none => rw [h0] at h; exact Option.noConfusion h
  | some p =>
  obtain ⟨S₁, ws⟩ := p
  simp only [h0] at h
  have hqq := qq_loop_datum d S e x S₁ ws hdt h0
  rw [hqq.1, hqq.2] at h
  cases x with
  | nil => simp [isCons] at hx
  | num v => simp [isCons] at hx
  | sym s => simp [isCons] at hx
  | str s => simp [isCons] at hx
  | err s => simp [isCons] at hx
  | bool bb => simp [isCons] at hx
  | ufunc m rr pp bb ee => simp [isCons] at hx
  | bfunc m nm => simp [isCons] at hx
  | cons a0 dx =>
  simp only [spineCars, List.map_cons] at h
  rw [show consBuild (wrapQQ a0 :: List.map wrapQQ (spineCars dx)) =
    objList (List.map wrapQQ (a0 :: spineCars dx)) from rfl] at h
  cases d with
  | zero => exact Option.noConfusion h
  | succ e1 =>
  cases e1 with
  | zero => exact Option.noConfusion h
  | succ e2 =>
  cases e2 with
  | zero => exact Option.noConfusion h
  | succ e3 =>
  cases e3 with
  | zero => exact Option.noConfusion h
  | succ e4 =>
  have hhead2 : eval (e4 + 1) S e (Obj.sym ("append")) = some (S, Obj.bfunc false BName.bappend) := by
    show some (S, (envGet S e ("append")).getD Obj.nil) = _
    rw [happend]; rfl
  replace h : eval_function_call (e4 + 1 + 1) S e
      (Obj.cons (Obj.sym ("append")) (objList (List.map wrapQQ (a0 :: spineCars dx)))) true =
      some (S', r) := h
  simp only [eval_function_call, car, cdr, hhead2] at h
  rw [if_neg (by simp : ¬(Obj.bfunc false BName.bappend = Obj.nil))] at h
  simp only [fnInfo, lengthObj_objList, List.length_map] at h
  rw [show List.length (a0 :: spineCars dx) = 0 + List.length (a0 :: spineCars dx) from
    (Nat.zero_add _).symm] at h
  cases h2 : evalArgs (e4 + 1) S e (objList (List.map wrapQQ (a0 :: spineCars dx))) false
      (0 + List.length (a0 :: spineCars dx)) 0 with
  | none => rw [h2] at h; exact Option.noConfusion h
  | some q =>
  obtain ⟨S₂, arr⟩ := q
  simp only [h2] at h
  have hargs := evalArgs_wrapQQ e (a0 :: spineCars dx) (e4 + 1) S 0 S₂ arr hwf he hlist h2
  simp only [Bool.false_eq_true, if_false, if_true, Bool.and_false, callBuiltin] at h
  rw [hargs.2] at h
  rw [show builtin_append (List.map (fun t => Obj.cons t Obj.nil) (a0 :: spineCars dx)) =
    bappGo (List.map (fun t => Obj.cons t Obj.nil) (a0 :: spineCars dx)) 0 [] from rfl,
    bappGo_singletons] at h
  simp only [List.nil_append] at h
  rw [show consBuild (a0 :: spineCars dx) = objList (spineCars (Obj.cons a0 dx)) from rfl] at h
  rw [spineCars_objList_inv _ hdt] at h
  simp only [Option.some.injEq, Prod.mk.injEq] at h
  exact h.2.symm

/-- Claim C3, counterexample.  The claim says `(quasiquote x) ≡ x` for
every unquote-free `x`, *including atoms*; but for the atom `5` the copy
step (lisp.c:3362-3387) leaves the freshly allocated `(nil . nil)` cell
(the loop never runs), so `(quasiquote 5)` evaluates to the one-element
list `(nil)`, not `5`. -/
theorem claim_c3_counterexample :
    eval 20 stQQ 0 (qqForm (.num 5)) =
      some (stQQ ++ [⟨[], some 0⟩, ⟨[], some 0⟩], Obj.cons Obj.nil Obj.nil) ∧
    Obj.cons Obj.nil Obj.nil ≠ Obj.num 5 := by
  refine ⟨by rfl, by decide⟩

/-- Witness for C3's amended theorem: `(quasiquote (1 2))` in the store
binding `list` and `append` runs to completion (appending one frame per
synthesised `list` call and one for the `append` call) and, by the
amended theorem applied at this concrete input, returns the template
`(1 2)` itself. -/
theorem claim_c3_witness :
    eval 40 stQQ 0 (qqForm (objList [Obj.num 1, Obj.num 2])) =
      some (stQQ ++ [⟨[], some 0⟩, ⟨[], some 0⟩, ⟨[], some 0⟩],
        objList [Obj.num 1, Obj.num 2]) ∧
    objList [Obj.num 1, Obj.num 2] = objList [Obj.num 1, Obj.num 2] := by
  have hwf : EnvWF stQQ := by
    intro i f p hg hp
    cases i with
    | zero =>
        simp only [stQQ, List.get?] at hg
        injection hg with hf
        rw [← hf] at hp
        exact Option.noConfusion hp
    | succ j =>
        simp [stQQ, List.get?] at hg
  have hrun : eval 40 stQQ 0 (qqForm (objList [Obj.num 1, Obj.num 2])) =
      some (stQQ ++ [⟨[], some 0⟩, ⟨[], some 0⟩, ⟨[], some 0⟩],
        objList [Obj.num 1, Obj.num 2]) := by rfl
  refine ⟨hrun, ?_⟩
  exact claim_c3_amended stQQ 0 (objList [Obj.num 1, Obj.num 2]) hwf (by simp [stQQ])
    (by rfl) (by rfl) (by rfl) (by rfl) 40 _ _ hrun

end Lisp
